import Mathlib

/-!
Verification of the round-result contract and retry/validation pipeline of the
Rock-Paper-Scissors-Bomb command-line game: the round-state transition
(`applyRoundResult`), the structured-output parser (`parseStructuredOutput`)
together with a full executable model of `JSON.parse`, the judge-round
retry/error pipeline (`judgeRound`, `shortError`, `isQuotaError`,
`parseRetryDelayMs`, `getProvider`), and the user-input normalizer
(`normalizeMoveInput`).

Modelling conventions (shallow embedding of the JavaScript source):
* JavaScript strings are Lean `String`s (lists of Unicode scalar values);
  UTF-16 code-unit effects (lone surrogates) are outside the model.
* `JSON.parse` / `JSON.stringify` are platform builtins; they are modelled by
  an executable full-grammar JSON parser/serializer (`jsonParseL`,
  `serializeJudgeResult`).  JSON numbers are kept as their literal token; the
  decimal re-formatting JavaScript applies when stringifying a number is not
  needed by any claim.
* Regular-expression tests from the source are modelled by equivalent
  executable scans, and `trim` / `\s` / `\w` / `toLowerCase` by their ASCII
  semantics (exotic Unicode space/case behaviour is outside the model).
* `parseFloat` on the matched decimal token is modelled exactly over the
  rationals (the ceiling of `token * 1000` computed with integer arithmetic);
  IEEE-754 rounding of `parseFloat` is outside the model.
-/

namespace RPS

/-! ### Character-level helpers (ASCII model of the JavaScript string primitives) -/

/-- Whitespace for the JavaScript `trim` and the regex class `\s`
(ASCII part: space, tab, LF, CR, VT, FF). -/
def isWsChar (c : Char) : Bool :=
  c.toNat = 32 || c.toNat = 9 || c.toNat = 10 || c.toNat = 13 || c.toNat = 11 || c.toNat = 12

/-- Word characters of the regex class `\w`, i.e. `[A-Za-z0-9_]`. -/
def isWordChar (c : Char) : Bool :=
  (97 ≤ c.toNat && c.toNat ≤ 122) || (65 ≤ c.toNat && c.toNat ≤ 90) ||
  (48 ≤ c.toNat && c.toNat ≤ 57) || c.toNat = 95

/-- ASCII lower-casing, modelling `String.prototype.toLowerCase`. -/
def toLowerC (c : Char) : Char :=
  if 65 ≤ c.toNat ∧ c.toNat ≤ 90 then Char.ofNat (c.toNat + 32) else c

def lowerL (l : List Char) : List Char := l.map toLowerC

/-- Remove trailing whitespace characters. -/
def dropTrailingWs (l : List Char) : List Char :=
  (l.reverse.dropWhile isWsChar).reverse

/-- Model of `String.prototype.trim` on the character list. -/
def jsTrimL (l : List Char) : List Char :=
  dropTrailingWs (l.dropWhile isWsChar)

/-- Model of `String.prototype.trim`. -/
def jsTrim (s : String) : String := ⟨jsTrimL s.data⟩

/-! ### `src/assignment/state.js` -/

def TOTAL_ROUNDS : Nat := 3

/-- The `intent` sub-record of a judge result.  Field values are strings (or
string-or-null), exactly as in the JavaScript objects the parser builds. -/
structure Intent where
  status : String
  move : Option String
  reason : String
deriving DecidableEq

/-- A judge result as produced by `parseStructuredOutput` and consumed by
`applyRoundResult`. -/
structure JudgeResult where
  intent : Intent
  round_winner : Option String
  response : String
deriving DecidableEq

/-- The minimal game state of `state.js`. -/
structure RoundState where
  round : Nat
  userScore : Nat
  botScore : Nat
  bombUsed : Bool
deriving DecidableEq

/-- `createState` from `state.js`. -/
def createState : RoundState :=
  { round := 1, userScore := 0, botScore := 0, bombUsed := false }

/-- `applyRoundResult` from `state.js`: advance the round and update
scores/bomb from the judge result. -/
def applyRoundResult (state : RoundState) (result : JudgeResult) : RoundState :=
  let next : RoundState :=
    { round := state.round + 1
      userScore := state.userScore
      botScore := state.botScore
      bombUsed := state.bombUsed }
  let next := if result.round_winner = some "user" then
    { next with userScore := next.userScore + 1 } else next
  let next := if result.round_winner = some "bot" then
    { next with botScore := next.botScore + 1 } else next
  let next := if result.intent.move = some "bomb" then
    { next with bombUsed := true } else next
  next

/-- `isGameOver` from `state.js`. -/
def isGameOver (state : RoundState) : Bool := TOTAL_ROUNDS < state.round

/-- `getFinalResult` from `state.js`. -/
def getFinalResult (state : RoundState) : String :=
  if state.botScore < state.userScore then "User wins"
  else if state.userScore < state.botScore then "Bot wins"
  else "Draw"

/-! ### `src/assignment/normalize-input.js` -/

def CANONICAL : List String := ["rock", "paper", "scissors", "bomb"]

/-- `TYPO_MAP` as a lookup over its own keys only (the object literal's own
properties).  The full JavaScript lookup `TYPO_MAP[key]` also reaches the
properties inherited from `Object.prototype`; `tmGet` below models that
complete lookup, with `typoLookup` as its own-entries part. -/
def typoLookup (key : String) : Option String :=
  if key = "scissor" ∨ key = "scisors" ∨ key = "scisor" ∨ key = "sissors" ∨ key = "sissor" then
    some "scissors"
  else if key = "roc" ∨ key = "rok" ∨ key = "rck" then some "rock"
  else if key = "papper" ∨ key = "pape" ∨ key = "papr" ∨ key = "paer" then some "paper"
  else if key = "bom" ∨ key = "bmb" ∨ key = "bome" then some "bomb"
  else none

/-- `normalizeExact` from `normalize-input.js`, restricted to own-key
lookups: if the whole input is a known typo or canonical move, return the
canonical form, else the input unchanged (`key` is the trimmed, lower-cased
input; `if (!key)` is the emptiness test).  `normalizeExactV` below is the
unrestricted function, whose lookup also reaches the `Object.prototype`
properties; the two agree whenever `key` is not such a property name. -/
def normalizeExact (input : String) : String :=
  if (lowerL (jsTrimL input.data)).isEmpty then input
  else
    match typoLookup ⟨lowerL (jsTrimL input.data)⟩ with
    | some c => c
    | none =>
      if CANONICAL.contains (⟨lowerL (jsTrimL input.data)⟩ : String) then
        (⟨lowerL (jsTrimL input.data)⟩ : String)
      else input

/-- Maximal runs of word/non-word characters: the segmentation performed by
`text.split(/\b/)` (a `\b` boundary falls exactly at every transition between
`\w` and non-`\w` characters). -/
def segs : List Char → List (List Char)
  | [] => []
  | c :: cs =>
    (c :: cs.takeWhile (fun d => isWordChar d == isWordChar c)) ::
      segs (cs.dropWhile (fun d => isWordChar d == isWordChar c))
termination_by l => l.length
decreasing_by
  simp only [List.length_cons]
  exact Nat.lt_succ_of_le (List.dropWhile_suffix _).length_le

/-- The kind of a segment: whether it is a run of word characters (the kind
of its first character; `false` for the empty list). -/
def runKind (s : List Char) : Bool :=
  match s with
  | [] => false
  | c :: _ => isWordChar c

/-- The per-word map of `normalizeWords`, restricted to own-key lookups:
replace a whole word whose lower-casing is a known typo by its canonical
move (`replSegV` below is the unrestricted map). -/
def replSeg (w : List Char) : List Char :=
  match typoLookup ⟨lowerL w⟩ with
  | some c => c.data
  | none => w

/-- `normalizeWords` from `normalize-input.js`, restricted to own-key
lookups: replace whole-word typos in the string with canonical moves
(`text.split(/\b/)` + map + join); `normalizeWordsV` below is the
unrestricted function. -/
def normalizeWords (text : String) : String :=
  ⟨((segs text.data).map replSeg).flatten⟩

/-- `normalizeMoveInput` from `normalize-input.js`, restricted to own-key
lookups (`normalizeMoveInputV` below is unrestricted).  For a trimmed
non-empty string, `trimmed.split(/\s+/).length === 1` holds exactly when the
string contains no whitespace character, which is how the single-word test
is stated here. -/
def normalizeMoveInput (raw : String) : String :=
  if (jsTrimL raw.data).isEmpty then (⟨jsTrimL raw.data⟩ : String)
  else if (jsTrimL raw.data).any isWsChar then normalizeWords ⟨jsTrimL raw.data⟩
  else normalizeExact ⟨jsTrimL raw.data⟩

/-- A JavaScript value reachable from `TYPO_MAP[key]`: a string (the
literal's own entries), an inherited `Object.prototype` method (a function,
identified by its function name), or `Object.prototype` itself (reached
through the inherited `__proto__` accessor).  Every non-`str` value here is
truthy. -/
inductive JsVal where
  | str : String → JsVal
  | protoFn : String → JsVal
  | protoObj : JsVal
deriving DecidableEq

/-- The property names a plain object literal inherits from
`Object.prototype`, i.e. the keys on which `TYPO_MAP[key]` is truthy without
being an own entry. -/
def PROTO_KEYS : List String :=
  ["constructor", "hasOwnProperty", "isPrototypeOf", "propertyIsEnumerable",
   "toLocaleString", "toString", "valueOf", "__defineGetter__", "__defineSetter__",
   "__lookupGetter__", "__lookupSetter__", "__proto__"]

/-- `TYPO_MAP[key]` in full: the object literal's own entries first, then
the properties inherited from `Object.prototype` (`constructor` is the
function named `Object`; `__proto__` evaluates to `Object.prototype` through
its inherited accessor), and `none` for `undefined`.  Every `some` value is
truthy (the own values are non-empty move names), so `if (TYPO_MAP[key])`
passes exactly on `some`. -/
def tmGet (key : String) : Option JsVal :=
  match typoLookup key with
  | some c => some (JsVal.str c)
  | none =>
    if key = "constructor" then some (JsVal.protoFn "Object")
    else if key = "hasOwnProperty" then some (JsVal.protoFn "hasOwnProperty")
    else if key = "isPrototypeOf" then some (JsVal.protoFn "isPrototypeOf")
    else if key = "propertyIsEnumerable" then some (JsVal.protoFn "propertyIsEnumerable")
    else if key = "toLocaleString" then some (JsVal.protoFn "toLocaleString")
    else if key = "toString" then some (JsVal.protoFn "toString")
    else if key = "valueOf" then some (JsVal.protoFn "valueOf")
    else if key = "__defineGetter__" then some (JsVal.protoFn "__defineGetter__")
    else if key = "__defineSetter__" then some (JsVal.protoFn "__defineSetter__")
    else if key = "__lookupGetter__" then some (JsVal.protoFn "__lookupGetter__")
    else if key = "__lookupSetter__" then some (JsVal.protoFn "__lookupSetter__")
    else if key = "__proto__" then some JsVal.protoObj
    else none

/-- The `String(...)` conversion `Array.prototype.join` applies to a
non-string element.  V8 (Node.js) renders a built-in function as
`function <name>() { [native code] }` and `Object.prototype` as
`[object Object]`; the text of `Function.prototype.toString` for built-ins
is implementation-defined and fixed here to Node's rendering (no claim
depends on its exact characters, only on it not being the original word). -/
def jsValJoinStr : JsVal → String
  | JsVal.str s => s
  | JsVal.protoFn n => "function " ++ n ++ "() \x7b [native code] \x7d"
  | JsVal.protoObj => "[object Object]"

/-- The per-word map of `normalizeWords` in full:
`TYPO_MAP[w.toLowerCase()] || w`, prototype chain included. -/
def replSegV (w : List Char) : JsVal :=
  match tmGet (⟨lowerL w⟩ : String) with
  | some v => v
  | none => JsVal.str (⟨w⟩ : String)

/-- `normalizeWords` in full: the segments are mapped through `replSegV` and
then `join('')` stringifies each value. -/
def normalizeWordsV (text : String) : String :=
  ⟨((segs text.data).map (fun w => (jsValJoinStr (replSegV w)).data)).flatten⟩

/-- `normalizeExact` in full, prototype chain included: a truthy
`TYPO_MAP[key]` — also an inherited non-string value — is returned as is. -/
def normalizeExactV (input : String) : JsVal :=
  if (lowerL (jsTrimL input.data)).isEmpty then JsVal.str input
  else
    match tmGet (⟨lowerL (jsTrimL input.data)⟩ : String) with
    | some v => v
    | none =>
      if CANONICAL.contains (⟨lowerL (jsTrimL input.data)⟩ : String) then
        JsVal.str (⟨lowerL (jsTrimL input.data)⟩ : String)
      else JsVal.str input

/-- `normalizeMoveInput` in full: on the single-word path the inherited
prototype values of `normalizeExact` escape to the caller, so the result is
a `JsVal`, not always a string. -/
def normalizeMoveInputV (raw : String) : JsVal :=
  if (jsTrimL raw.data).isEmpty then JsVal.str (⟨jsTrimL raw.data⟩ : String)
  else if (jsTrimL raw.data).any isWsChar then
    JsVal.str (normalizeWordsV (⟨jsTrimL raw.data⟩ : String))
  else normalizeExactV (⟨jsTrimL raw.data⟩ : String)

/-- `normalizeMoveInput` applied to an arbitrary value, as in a second
application to a previous result: `(raw || '').trim()` succeeds only on
strings — a truthy non-string value has no `trim` method, so the call throws
a `TypeError`. -/
def normalizeMoveInputJs : JsVal → Except String JsVal
  | JsVal.str s => Except.ok (normalizeMoveInputV s)
  | _ => Except.error "TypeError"

/-! ### JSON values and a full-grammar executable model of `JSON.parse` -/

/-- A JSON value.  Numbers keep their literal token (no claim depends on
numeric re-formatting). -/
inductive Json where
  | null : Json
  | bool : Bool → Json
  | num : String → Json
  | str : String → Json
  | arr : List Json → Json
  | obj : List (String × Json) → Json

/-- JSON's own whitespace set (RFC 8259: space, tab, LF, CR). -/
def isJsonWs (c : Char) : Bool :=
  c.toNat = 32 || c.toNat = 9 || c.toNat = 10 || c.toNat = 13

def isDigitC (c : Char) : Bool := 48 ≤ c.toNat && c.toNat ≤ 57

def hexDigitVal (c : Char) : Option Nat :=
  if 48 ≤ c.toNat ∧ c.toNat ≤ 57 then some (c.toNat - 48)
  else if 97 ≤ c.toNat ∧ c.toNat ≤ 102 then some (c.toNat - 87)
  else if 65 ≤ c.toNat ∧ c.toNat ≤ 70 then some (c.toNat - 55)
  else none

/-- Decode one simple escape letter (everything but `\uXXXX`). -/
def escDecode (e : Char) : Option Char :=
  if e = '"' then some '"'
  else if e = '\\' then some '\\'
  else if e = '/' then some '/'
  else if e = 'b' then some (Char.ofNat 8)
  else if e = 'f' then some (Char.ofNat 12)
  else if e = 'n' then some '\n'
  else if e = 'r' then some (Char.ofNat 13)
  else if e = 't' then some '\t'
  else none

mutual

/-- Decode a JSON string body (after the opening quote) up to and including the
closing quote, returning the decoded characters and the remaining input.
Invalid escapes, unterminated strings and raw control characters fail, as in
`JSON.parse`.  A `\uXXXX` escape decodes through `Char.ofNat` (surrogate-pair
recombination of UTF-16 is outside the model; no claim exercises it). -/
def parseStringL : List Char → Option (List Char × List Char)
  | [] => none
  | c :: rest =>
    if c = '"' then some ([], rest)
    else if c = '\\' then parseEscapeL rest
    else if c.toNat < 32 then none
    else (parseStringL rest).map (fun p => (c :: p.1, p.2))

/-- Decode what follows a backslash inside a JSON string body. -/
def parseEscapeL : List Char → Option (List Char × List Char)
  | [] => none
  | e :: r2 =>
    if e = 'u' then parseUnicodeL r2
    else
      match escDecode e with
      | some ch => (parseStringL r2).map (fun p => (ch :: p.1, p.2))
      | none => none

/-- Decode the four hex digits of a `\uXXXX` escape and the remaining body. -/
def parseUnicodeL : List Char → Option (List Char × List Char)
  | a :: b :: d :: e :: r3 =>
    (match hexDigitVal a, hexDigitVal b, hexDigitVal d, hexDigitVal e with
     | some va, some vb, some vd, some ve =>
       (parseStringL r3).map
         (fun p => (Char.ofNat (((va * 16 + vb) * 16 + vd) * 16 + ve) :: p.1, p.2))
     | _, _, _, _ => none)
  | _ => none

end

/-- The digits of a JSON number token after the optional sign: integer part,
optional fraction, optional exponent.  Returns the token characters and the
rest.  (Grammar: `(0 | [1-9][0-9]*) (\.[0-9]+)? ([eE][+-]?[0-9]+)?`; a leading
`0` followed by more digits, or a dot/exponent without digits, leaves the
offending characters unconsumed so that parsing fails at the composition
level, exactly as `JSON.parse` rejects such inputs.) -/
def parseNumBody (l : List Char) : Option (List Char × List Char) :=
  let intPart : Option (List Char × List Char) :=
    match l with
    | '0' :: r => some (['0'], r)
    | c :: _ => if isDigitC c then some (l.takeWhile isDigitC, l.dropWhile isDigitC) else none
    | [] => none
  match intPart with
  | none => none
  | some (ds, r1) =>
    let (tok2, r2) : List Char × List Char :=
      match r1 with
      | '.' :: rf =>
        if (rf.takeWhile isDigitC).isEmpty then (ds, r1)
        else (ds ++ '.' :: rf.takeWhile isDigitC, rf.dropWhile isDigitC)
      | _ => (ds, r1)
    let (tok3, r3) : List Char × List Char :=
      match r2 with
      | e :: rs =>
        if e = 'e' ∨ e = 'E' then
          match rs with
          | s :: rs2 =>
            if s = '+' ∨ s = '-' then
              if (rs2.takeWhile isDigitC).isEmpty then (tok2, r2)
              else (tok2 ++ e :: s :: rs2.takeWhile isDigitC, rs2.dropWhile isDigitC)
            else if (rs.takeWhile isDigitC).isEmpty then (tok2, r2)
            else (tok2 ++ e :: rs.takeWhile isDigitC, rs.dropWhile isDigitC)
          | [] => (tok2, r2)
        else (tok2, r2)
      | [] => (tok2, r2)
    some (tok3, r3)

/-- Parse a JSON number token (with optional leading minus). -/
def parseNumberL (l : List Char) : Option (Json × List Char) :=
  match l with
  | '-' :: r => (parseNumBody r).map (fun p => (Json.num ⟨'-' :: p.1⟩, p.2))
  | _ => (parseNumBody l).map (fun p => (Json.num ⟨p.1⟩, p.2))

mutual

/-- Parse one JSON value, skipping leading whitespace.  `fuel` bounds the
recursion; the top-level entry point supplies more fuel than any parse can
consume (each recursive step first consumes at least one character). -/
def parseValueL : Nat → List Char → Option (Json × List Char)
  | 0, _ => none
  | Nat.succ f, l =>
    match l.dropWhile isJsonWs with
    | [] => none
    | c :: rest =>
      if c = '{' then
        (match rest.dropWhile isJsonWs with
         | [] => none
         | c2 :: r2 =>
           if c2 = '}' then some (Json.obj [], r2) else parseMembersL f (c2 :: r2) [])
      else if c = '[' then
        (match rest.dropWhile isJsonWs with
         | [] => none
         | c2 :: r2 =>
           if c2 = ']' then some (Json.arr [], r2) else parseElemsL f (c2 :: r2) [])
      else if c = '"' then (parseStringL rest).map (fun p => (Json.str ⟨p.1⟩, p.2))
      else if c = 't' then
        (if rest.take 3 = "rue".data then some (Json.bool true, rest.drop 3) else none)
      else if c = 'f' then
        (if rest.take 4 = "alse".data then some (Json.bool false, rest.drop 4) else none)
      else if c = 'n' then
        (if rest.take 3 = "ull".data then some (Json.null, rest.drop 3) else none)
      else parseNumberL (c :: rest)

/-- Parse the members of an object, starting at a key (whitespace before the
key already skipped), with the members parsed so far accumulated in order.
Later duplicate keys follow earlier ones in the list (lookup takes the last,
as JavaScript object construction overwrites). -/
def parseMembersL : Nat → List Char → List (String × Json) → Option (Json × List Char)
  | 0, _, _ => none
  | Nat.succ f, l, acc =>
    match l with
    | [] => none
    | c :: r =>
      if c = '"' then
        match parseStringL r with
        | some (key, r2) =>
          (match r2.dropWhile isJsonWs with
           | [] => none
           | c2 :: r3 =>
             if c2 = ':' then
               match parseValueL f r3 with
               | some (v, r4) =>
                 (match r4.dropWhile isJsonWs with
                  | [] => none
                  | c3 :: r5 =>
                    if c3 = ',' then
                      parseMembersL f (r5.dropWhile isJsonWs) (acc ++ [(⟨key⟩, v)])
                    else if c3 = '}' then some (Json.obj (acc ++ [(⟨key⟩, v)]), r5)
                    else none)
               | none => none
             else none)
        | none => none
      else none

/-- Parse the elements of an array, starting at a value, with the elements
parsed so far accumulated in order. -/
def parseElemsL : Nat → List Char → List Json → Option (Json × List Char)
  | 0, _, _ => none
  | Nat.succ f, l, acc =>
    match parseValueL f l with
    | some (v, r) =>
      (match r.dropWhile isJsonWs with
       | [] => none
       | c :: r2 =>
         if c = ',' then parseElemsL f r2 (acc ++ [v])
         else if c = ']' then some (Json.arr (acc ++ [v]), r2)
         else none)
    | none => none

end

/-- Model of `JSON.parse`: parse one value and require only whitespace after
it. -/
def jsonParseL (l : List Char) : Option Json :=
  match parseValueL (l.length + 1) l with
  | some (j, rest) => if (rest.dropWhile isJsonWs).isEmpty then some j else none
  | none => none

/-! ### Field access and coercion helpers used by `parseStructuredOutput` -/

/-- Property read `j[key]` on a parsed JSON value: `some` mirrors a present
property (including one holding JSON `null`), `none` mirrors JavaScript
`undefined`.  On duplicate keys the last assignment wins, as in JavaScript
object construction; non-objects have no own properties. -/
def getField (j : Json) (key : String) : Option Json :=
  match j with
  | Json.obj l => l.foldl (fun acc p => if p.1 = key then some p.2 else acc) none
  | _ => none

mutual

/-- Model of JavaScript `String(v)` on a JSON value (numbers keep their
token; arrays join their stringified elements with commas, `null` elements
becoming empty, as `Array.prototype.toString` does). -/
def jsToString : Json → String
  | Json.null => "null"
  | Json.bool b => if b then "true" else "false"
  | Json.num lit => lit
  | Json.str s => s
  | Json.arr l => jsArrJoin l
  | Json.obj _ => "[object Object]"

def jsArrJoin : List Json → String
  | [] => ""
  | [x] => jsElemStr x
  | x :: y :: xs => jsElemStr x ++ "," ++ jsArrJoin (y :: xs)

def jsElemStr : Json → String
  | Json.null => ""
  | j => jsToString j

end

/-! ### `src/assignment/ai-judge.js`: `parseStructuredOutput` -/

def statusList : List String := ["VALID", "INVALID", "UNCLEAR"]
def moveList : List String := ["rock", "paper", "scissors", "bomb"]
def winnerList : List String := ["user", "bot", "draw"]

/-- `obj.intent && typeof obj.intent === 'object'`: among JSON values the
truthy ones with `typeof` `'object'` are exactly objects and arrays. -/
def isObjectLike : Json → Bool
  | Json.obj _ => true
  | Json.arr _ => true
  | _ => false

/-- The fallback intent `{ status: 'UNCLEAR', move: null, reason: 'Missing intent.' }`. -/
def missingIntent : Intent :=
  { status := "UNCLEAR", move := none, reason := "Missing intent." }

/-- `['VALID','INVALID','UNCLEAR'].includes(obj.intent.status) ? obj.intent.status : 'UNCLEAR'`
(`includes` with string literals matches only an equal string value). -/
def statusOfIntentJ (v : Json) : String :=
  match getField v "status" with
  | some (Json.str s) => if statusList.contains s then s else "UNCLEAR"
  | _ => "UNCLEAR"

/-- `['rock','paper','scissors','bomb'].includes(obj.intent.move) ? obj.intent.move : null`. -/
def moveOfIntentJ (v : Json) : Option String :=
  match getField v "move" with
  | some (Json.str m) => if moveList.contains m then some m else none
  | _ => none

/-- `String(obj.intent.reason ?? '')`. -/
def reasonOfIntentJ (v : Json) : String :=
  match getField v "reason" with
  | none => ""
  | some Json.null => ""
  | some w => jsToString w

/-- The `intent` field validation of `parseStructuredOutput`. -/
def intentOf (j : Json) : Intent :=
  match getField j "intent" with
  | some v =>
    if isObjectLike v then
      { status := statusOfIntentJ v, move := moveOfIntentJ v, reason := reasonOfIntentJ v }
    else missingIntent
  | none => missingIntent

/-- The `round_winner` field validation of `parseStructuredOutput`. -/
def winnerOf (j : Json) : Option String :=
  match getField j "round_winner" with
  | some (Json.str w) => if winnerList.contains w then some w else none
  | _ => none

/-- The `response` field coercion of `parseStructuredOutput`
(`typeof obj.response === 'string' ? obj.response : String(obj.response ?? '')`). -/
def responseOf (j : Json) : String :=
  match getField j "response" with
  | some (Json.str s) => s
  | none => ""
  | some Json.null => ""
  | some w => jsToString w

/-- The fenced-code-block stripping of `parseStructuredOutput`: the effect of
`m = s.match(/^```(?:json)?\s*([\s\S]*?)```$/); if (m) s = m[1].trim()` on the
already-trimmed string.  The regex matches exactly when the string starts
with three backticks and, after an optional literal `json` tag and any
whitespace, the remainder ends in three backticks; the captured group is the
part between. -/
def stripFenceL (l : List Char) : List Char :=
  if l.take 3 = "```".data then
    let r := l.drop 3
    let r := if r.take 4 = "json".data then r.drop 4 else r
    let r2 := r.dropWhile isWsChar
    if 3 ≤ r2.length ∧ r2.drop (r2.length - 3) = "```".data then
      jsTrimL (r2.take (r2.length - 3))
    else l
  else l

/-- The fallback result of the `catch` branch of `parseStructuredOutput`
(`text.slice(0, 500)` truncates the raw text to its first 500 characters). -/
def parseFailResult (text : String) : JudgeResult :=
  { intent := { status := "UNCLEAR", move := none, reason := "Response was not valid JSON." }
    round_winner := none
    response := ⟨text.data.take 500⟩ }

/-- `parseStructuredOutput` from `ai-judge.js`.  A reply that parses to JSON
`null` also lands in the fallback: the very first property access
`obj.intent` throws a `TypeError` inside the `try` block. -/
def parseStructuredOutput (text : String) : JudgeResult :=
  match jsonParseL (stripFenceL (jsTrimL text.data)) with
  | some Json.null => parseFailResult text
  | some j =>
    { intent := intentOf j, round_winner := winnerOf j, response := responseOf j }
  | none => parseFailResult text

/-! ### Serialization in the exact output shape (model of `JSON.stringify`
on a record `{intent: {status, move, reason}, round_winner, response}`) -/

def hexDigitChar (n : Nat) : Char := "0123456789abcdef".data.getD n '0'

/-- Escaping of one character inside a JSON string literal, as
`JSON.stringify` performs it. -/
def escChar (c : Char) : List Char :=
  if c = '"' then ['\\', '"']
  else if c = '\\' then ['\\', '\\']
  else if c.toNat = 8 then ['\\', 'b']
  else if c.toNat = 9 then ['\\', 't']
  else if c.toNat = 10 then ['\\', 'n']
  else if c.toNat = 12 then ['\\', 'f']
  else if c.toNat = 13 then ['\\', 'r']
  else if c.toNat < 32 then
    ['\\', 'u', '0', '0', hexDigitChar (c.toNat / 16), hexDigitChar (c.toNat % 16)]
  else [c]

def escL (l : List Char) : List Char := (l.map escChar).flatten

/-- A serialized string literal, quotes included. -/
def serStr (s : String) : List Char := '"' :: escL s.data ++ ['"']

/-- A serialized string-or-null value. -/
def serOpt : Option String → List Char
  | some s => serStr s
  | none => "null".data

/-- The record serialized in the exact output shape of the judge contract. -/
def serializeJudgeResultL (r : JudgeResult) : List Char :=
  "\x7b\"intent\":\x7b\"status\":".data ++ (serStr r.intent.status ++
    (",\"move\":".data ++ (serOpt r.intent.move ++
    (",\"reason\":".data ++ (serStr r.intent.reason ++
    ("\x7d,\"round_winner\":".data ++ (serOpt r.round_winner ++
    (",\"response\":".data ++ (serStr r.response ++ ['}'])))))))))

def serializeJudgeResult (r : JudgeResult) : String := ⟨serializeJudgeResultL r⟩

/-- The JSON value a string-or-null field denotes. -/
def optJson : Option String → Json
  | some s => Json.str s
  | none => Json.null

/-- The JSON value that serialization denotes. -/
def jsonOfJudgeResult (r : JudgeResult) : Json :=
  Json.obj
    [("intent", Json.obj
        [("status", Json.str r.intent.status),
         ("move", optJson r.intent.move),
         ("reason", Json.str r.intent.reason)]),
     ("round_winner", optJson r.round_winner),
     ("response", Json.str r.response)]

/-! ### `src/assignment/ai-judge.js`: error classification and retry policy -/

/-- Case-insensitive prefix test (pattern given in lower case). -/
def ciPrefixAt : List Char → List Char → Bool
  | [], _ => true
  | _ :: _, [] => false
  | p :: ps, c :: cs => toLowerC c = p && ciPrefixAt ps cs

/-- Case-insensitive substring test, modelling `/pat/i.test(msg)` for a
literal pattern. -/
def containsCIL (l : List Char) (pat : List Char) : Bool :=
  match l with
  | [] => pat.isEmpty
  | _ :: rest => ciPrefixAt pat l || containsCIL rest pat

def containsCI (msg pat : String) : Bool := containsCIL msg.data pat.data

/-- The rate-limit pattern `/429|quota|Too Many Requests|rate limit/i`. -/
def quotaPat (msg : String) : Bool :=
  containsCI msg "429" || containsCI msg "quota" ||
  containsCI msg "too many requests" || containsCI msg "rate limit"

/-- `isQuotaError` from `ai-judge.js`; the error is represented by its
`message` (`(err && err.message) || ''` makes a missing message the empty
string, which matches no pattern). -/
def isQuotaError (err : Option String) : Bool := quotaPat (err.getD "")

/-- The number token matched by `(\d+(?:\.\d+)?)\s*s` at the current
position: maximal digits, an optional fraction, any whitespace, then a
(case-insensitive) `s`.  Returns the token. -/
def matchNumThenS (l : List Char) : Option (List Char) :=
  let ds := l.takeWhile isDigitC
  if ds.isEmpty then none
  else
    let r := l.dropWhile isDigitC
    let (tok, r2) : List Char × List Char :=
      match r with
      | '.' :: rf =>
        if (rf.takeWhile isDigitC).isEmpty then (ds, r)
        else (ds ++ '.' :: rf.takeWhile isDigitC, rf.dropWhile isDigitC)
      | _ => (ds, r)
    match r2.dropWhile isWsChar with
    | c :: _ => if toLowerC c = 's' then some tok else none
    | [] => none

/-- Leftmost match of `/retry in (\d+(?:\.\d+)?)\s*s/i`: scan positions left
to right; where the literal `retry in ` matches case-insensitively, try the
number-then-`s` part; otherwise move on one character. -/
def findRetryNum : List Char → Option (List Char)
  | [] => none
  | c :: rest =>
    match if ciPrefixAt "retry in ".data (c :: rest) then
        matchNumThenS ((c :: rest).drop 9) else none with
    | some tok => some tok
    | none => findRetryNum rest

def digitsToNat (ds : List Char) : Nat :=
  ds.foldl (fun n c => n * 10 + (c.toNat - 48)) 0

/-- `Math.ceil(parseFloat(tok) * 1000)` computed exactly over the rationals:
for a token `a.b`, the value is `a*1000` plus the first three fraction digits
(padded with zeros), plus one if any further fraction digit is non-zero. -/
def ceilMsOfToken (tok : List Char) : Nat :=
  let intPart := tok.takeWhile isDigitC
  let frac := (tok.dropWhile isDigitC).drop 1
  let f3 := frac.take 3
  digitsToNat intPart * 1000 + digitsToNat (f3 ++ List.replicate (3 - f3.length) '0') +
    (if (frac.drop 3).any (fun d => d ≠ '0') then 1 else 0)

def DEFAULT_RETRY_MS : Nat := 10000

/-- `parseRetryDelayMs` from `ai-judge.js`. -/
def parseRetryDelayMs (err : Option String) : Nat :=
  match findRetryNum (err.getD "").data with
  | some tok => ceilMsOfToken tok
  | none => DEFAULT_RETRY_MS

def notFoundPat (msg : String) : Bool :=
  containsCI msg "404" || containsCI msg "not found"

def authPat (msg : String) : Bool :=
  containsCI msg "401" || containsCI msg "403" ||
  containsCI msg "api key" || containsCI msg "invalid api key"

/-- `shortError` from `ai-judge.js` (multi-provider variant under `src/`):
a short user-facing message for API errors. -/
def shortError (err : Option String) (provider : Option String) : String :=
  let msg := err.getD ""
  if quotaPat msg then
    "Rate limit exceeded. Wait ~" ++ toString ((parseRetryDelayMs err + 999) / 1000) ++
      "s and try again."
  else if notFoundPat msg then
    if provider = some "gemini" then
      "Model not found. Try setting GEMINI_MODEL (e.g. gemini-2.0-flash)."
    else
      "Model not found. Try setting ANTHROPIC_MODEL (e.g. claude-3-5-haiku-latest)."
  else if authPat msg then
    "Invalid or missing API key. Set GEMINI_API_KEY or ANTHROPIC_API_KEY."
  else if 120 < msg.length then (⟨msg.data.take 120⟩ : String) ++ "…"
  else msg

/-! ### `judgeRound`: provider selection and the attempt loop -/

/-- The credential environment seen by `getProvider`: the `options.apiKey`
argument and the three environment variables (a `none` is an unset variable,
`some ""` a set-but-empty one, which is falsy in JavaScript). -/
structure Env where
  optApiKey : Option String
  anthropicKey : Option String
  geminiKey : Option String
  googleKey : Option String

/-- JavaScript truthiness of a string-or-undefined value. -/
def truthy : Option String → Bool
  | none => false
  | some s => !s.data.isEmpty

/-- JavaScript `a || b` on string-or-undefined values. -/
def jsOr (a b : Option String) : Option String := if truthy a then a else b

/-- `getProvider` from `ai-judge.js`: prefer Claude if both keys are set. -/
def getProvider (env : Env) : Option String × Option String :=
  let anthropicKey := jsOr env.optApiKey env.anthropicKey
  let geminiKey := jsOr env.geminiKey env.googleKey
  if truthy anthropicKey then (some "claude", anthropicKey)
  else if truthy geminiKey then (some "gemini", geminiKey)
  else (none, none)

/-- One outcome of a provider call: the raw reply text, or a thrown error
represented by its message. -/
inductive CallResult where
  | ok : String → CallResult
  | err : String → CallResult

/-- What one `judgeRound` invocation returns: the judge result plus the raw
reply text kept for diagnostics (`null` on every error path). -/
structure JudgeOutcome where
  result : JudgeResult
  raw : Option String
deriving DecidableEq

/-- The attempt loop's observable behaviour: final outcome, number of call
attempts made, and the sleep delays (ms) taken before each retry. -/
structure LoopOut where
  outcome : JudgeOutcome
  attempts : Nat
  delays : List Nat
deriving DecidableEq

def MAX_RETRIES : Nat := 2

/-- The result returned when no credential is configured. -/
def noKeyOutcome : JudgeOutcome :=
  { result :=
      { intent := { status := "INVALID", move := none,
                    reason := "No API key. Set GEMINI_API_KEY or ANTHROPIC_API_KEY in .env." }
        round_winner := none
        response := "Cannot run AI Judge: set either GEMINI_API_KEY or ANTHROPIC_API_KEY in .env." }
    raw := none }

/-- The result returned when the model reply is empty. -/
def noContentOutcome : JudgeOutcome :=
  { result :=
      { intent := { status := "UNCLEAR", move := none, reason := "Model returned no content." }
        round_winner := none
        response := "No response from the Judge. Try again." }
    raw := none }

/-- The result built from `shortError` after the loop ends on an error. -/
def errorOutcome (lastErr : Option String) (provider : Option String) : JudgeOutcome :=
  { result :=
      { intent := { status := "INVALID", move := none, reason := shortError lastErr provider }
        round_winner := none
        response := "Judge error: " ++ shortError lastErr provider }
    raw := none }

/-- The `for (attempt = 0; attempt <= MAX_RETRIES; attempt++)` loop of
`judgeRound`, driven by an oracle list of provider-call outcomes (one entry
per attempt; the exhausted-oracle case cannot arise while attempts remain and
is mapped to the loop's fall-through with no recorded error).  A successful
call yields the trimmed reply text (the `.trim()` the provider wrappers
apply); an error retries only while `attempt < MAX_RETRIES` and the error is
a quota error, sleeping `parseRetryDelayMs` first. -/
def attemptLoop (provider : Option String) : Nat → List CallResult → LoopOut
  | _, [] => { outcome := errorOutcome none provider, attempts := 0, delays := [] }
  | attempt, c :: rest =>
    match c with
    | CallResult.ok s =>
      let text := jsTrim s
      if text.data.isEmpty then
        { outcome := noContentOutcome, attempts := 1, delays := [] }
      else
        { outcome := { result := parseStructuredOutput text, raw := some text }
          attempts := 1, delays := [] }
    | CallResult.err m =>
      if attempt < MAX_RETRIES ∧ isQuotaError (some m) then
        let r := attemptLoop provider (attempt + 1) rest
        { outcome := r.outcome, attempts := r.attempts + 1,
          delays := parseRetryDelayMs (some m) :: r.delays }
      else
        { outcome := errorOutcome (some m) provider, attempts := 1, delays := [] }

/-- `judgeRound` from `ai-judge.js`, abstracted over the provider-call
oracle: missing credential short-circuits before any call; otherwise the
attempt loop runs. -/
def judgeRoundModel (env : Env) (calls : List CallResult) : LoopOut :=
  match getProvider env with
  | (none, _) => { outcome := noKeyOutcome, attempts := 0, delays := [] }
  | (some p, _) => attemptLoop (some p) 0 calls

/-- The cross-field invariant of claim C4 on a judge result: a non-`VALID`
status comes with a null move and a null winner. -/
def crossFieldInv (r : JudgeResult) : Prop :=
  r.intent.status ≠ "VALID" → (r.intent.move = none ∧ r.round_winner = none)

/-- The canonical move a single-word input resolves to, when it is
(case-insensitively) a known typo or a canonical move. -/
def canonicalTarget (key : String) : Option String :=
  match typoLookup key with
  | some c => some c
  | none => if CANONICAL.contains key then some key else none

/-! ## Theorems -/

/-! ### Claims C1 and C2: the state transition -/

/-- C1: for every round state `s` and judge result `r`, `applyRoundResult s r`
has `round = s.round + 1`, `userScore = s.userScore + 1` exactly if the
winner is `user` (else unchanged), and `botScore = s.botScore + 1` exactly if
the winner is `bot` (else unchanged); in particular a null winner leaves both
scores unchanged. -/
theorem claim_C1 (s : RoundState) (r : JudgeResult) :
    (applyRoundResult s r).round = s.round + 1 ∧
    (applyRoundResult s r).userScore =
      (if r.round_winner = some "user" then s.userScore + 1 else s.userScore) ∧
    (applyRoundResult s r).botScore =
      (if r.round_winner = some "bot" then s.botScore + 1 else s.botScore) := by
  unfold applyRoundResult
  split_ifs <;> simp_all

/-- C2: `applyRoundResult` sets `bombUsed` exactly when the judged move is
`bomb` or it was already set, and once set it stays set. -/
theorem claim_C2 (s : RoundState) (r : JudgeResult) :
    (applyRoundResult s r).bombUsed = (decide (r.intent.move = some "bomb") || s.bombUsed) ∧
    (s.bombUsed = true → (applyRoundResult s r).bombUsed = true) := by
  unfold applyRoundResult
  split_ifs with h1 h2 h3 <;> simp_all

/-- C2 (witness): a state with the bomb already used keeps it used. -/
theorem claim_C2_witness :
    (applyRoundResult { round := 1, userScore := 0, botScore := 0, bombUsed := true }
      { intent := { status := "VALID", move := none, reason := "" },
        round_winner := none, response := "" }).bombUsed = true :=
  (claim_C2 { round := 1, userScore := 0, botScore := 0, bombUsed := true }
    { intent := { status := "VALID", move := none, reason := "" },
      round_winner := none, response := "" }).2 rfl

/-! ### Claim C3: totality and field domains of the result parser -/

theorem statusOfIntentJ_mem (v : Json) : statusOfIntentJ v ∈ statusList := by
  unfold statusOfIntentJ
  split
  · split
    · next s hc => simpa using hc
    · simp [statusList]
  · simp [statusList]

theorem moveOfIntentJ_ok (v : Json) :
    moveOfIntentJ v = none ∨ ∃ m ∈ moveList, moveOfIntentJ v = some m := by
  unfold moveOfIntentJ
  split
  · split
    · rename_i m heq hc
      right; exact ⟨m, by simpa using hc, rfl⟩
    · left; rfl
  · left; rfl

theorem intentOf_status_mem (j : Json) : (intentOf j).status ∈ statusList := by
  unfold intentOf
  split
  · split
    · exact statusOfIntentJ_mem _
    · simp [missingIntent, statusList]
  · simp [missingIntent, statusList]

theorem intentOf_move_ok (j : Json) :
    (intentOf j).move = none ∨ ∃ m ∈ moveList, (intentOf j).move = some m := by
  unfold intentOf
  split
  · split
    · exact moveOfIntentJ_ok _
    · left; rfl
  · left; rfl

theorem winnerOf_ok (j : Json) :
    winnerOf j = none ∨ ∃ w ∈ winnerList, winnerOf j = some w := by
  unfold winnerOf
  split
  · split
    · rename_i w heq hc
      right; exact ⟨w, by simpa using hc, rfl⟩
    · left; rfl
  · left; rfl

/-- C3: the result parser is total — it is a function on all of `String` —
and on every input the enum fields land in their closed sets: the status is
one of VALID/INVALID/UNCLEAR, the move one of the four moves or null, the
winner user/bot/draw or null (reason and response are always strings by the
type of `JudgeResult`, so every field is populated). -/
theorem claim_C3 (s : String) :
    (parseStructuredOutput s).intent.status ∈ statusList ∧
    ((parseStructuredOutput s).intent.move = none ∨
      ∃ m ∈ moveList, (parseStructuredOutput s).intent.move = some m) ∧
    ((parseStructuredOutput s).round_winner = none ∨
      ∃ w ∈ winnerList, (parseStructuredOutput s).round_winner = some w) := by
  unfold parseStructuredOutput
  split
  · exact ⟨by simp [parseFailResult, statusList], Or.inl rfl, Or.inl rfl⟩
  · exact ⟨intentOf_status_mem _, intentOf_move_ok _, winnerOf_ok _⟩
  · exact ⟨by simp [parseFailResult, statusList], Or.inl rfl, Or.inl rfl⟩

/-! ### Claim C5: the parse-failure fallback -/

/-- C5: when the content left after stripping an optional fenced code block
does not parse as JSON, the parser returns exactly the fallback record:
status UNCLEAR, null move and winner, the fixed reason message, and the raw
text truncated to its first 500 characters. -/
theorem claim_C5 (s : String)
    (h : jsonParseL (stripFenceL (jsTrimL s.data)) = none) :
    parseStructuredOutput s =
      { intent := { status := "UNCLEAR", move := none, reason := "Response was not valid JSON." }
        round_winner := none
        response := ⟨s.data.take 500⟩ } := by
  unfold parseStructuredOutput
  rw [h]
  rfl

/-- C5 (witness): the scenario reply `"not json at all"`. -/
theorem claim_C5_witness :
    parseStructuredOutput "not json at all" =
      { intent := { status := "UNCLEAR", move := none, reason := "Response was not valid JSON." }
        round_winner := none
        response := "not json at all" } :=
  claim_C5 "not json at all" rfl

/-! ### Claim C4: the cross-field invariant (refuted on the parsed-success
path, confirmed on every error path) -/

/-- C4 (counterexample): a syntactically valid reply whose status is UNCLEAR
but which names a move and a winner is passed through with the non-null move
and winner intact — `parseStructuredOutput` validates each field
independently and does not enforce the cross-field invariant. -/
theorem claim_C4_counterexample :
    (parseStructuredOutput "\x7b\"intent\":\x7b\"status\":\"UNCLEAR\",\"move\":\"rock\",\"reason\":\"r\"\x7d,\"round_winner\":\"user\",\"response\":\"x\"\x7d").intent.status
        = "UNCLEAR" ∧
    (parseStructuredOutput "\x7b\"intent\":\x7b\"status\":\"UNCLEAR\",\"move\":\"rock\",\"reason\":\"r\"\x7d,\"round_winner\":\"user\",\"response\":\"x\"\x7d").intent.move
        = some "rock" ∧
    (parseStructuredOutput "\x7b\"intent\":\x7b\"status\":\"UNCLEAR\",\"move\":\"rock\",\"reason\":\"r\"\x7d,\"round_winner\":\"user\",\"response\":\"x\"\x7d").round_winner
        = some "user" := by
  refine ⟨rfl, rfl, rfl⟩

theorem attemptLoop_raw_none_inv (calls : List CallResult) :
    ∀ (prov : Option String) (attempt : Nat),
      (attemptLoop prov attempt calls).outcome.raw = none →
      (attemptLoop prov attempt calls).outcome.result.intent.status ≠ "VALID" ∧
      (attemptLoop prov attempt calls).outcome.result.intent.move = none ∧
      (attemptLoop prov attempt calls).outcome.result.round_winner = none := by
  induction calls with
  | nil =>
    intro prov attempt _
    exact ⟨(by decide : ("INVALID" : String) ≠ "VALID"), rfl, rfl⟩
  | cons c rest ih =>
    intro prov attempt h
    cases c with
    | ok s =>
      by_cases he : (jsTrim s).data.isEmpty
      · have e : attemptLoop prov attempt (CallResult.ok s :: rest) =
            { outcome := noContentOutcome, attempts := 1, delays := [] } := by
          simp [attemptLoop, he]
        rw [e]
        exact ⟨(by decide : ("UNCLEAR" : String) ≠ "VALID"), rfl, rfl⟩
      · simp [attemptLoop, he] at h
    | err m =>
      by_cases hq : attempt < MAX_RETRIES ∧ isQuotaError (some m)
      · simp only [attemptLoop, if_pos hq] at h ⊢
        exact ih prov (attempt + 1) h
      · have e : attemptLoop prov attempt (CallResult.err m :: rest) =
            { outcome := errorOutcome (some m) prov, attempts := 1, delays := [] } := by
          simp [attemptLoop, if_neg hq]
        rw [e]
        exact ⟨(by decide : ("INVALID" : String) ≠ "VALID"), rfl, rfl⟩

/-- C4 (amended): every judge outcome returned on an error path — missing
credential, empty reply, exhausted retries, non-retryable error, all and only
the outcomes carrying `raw = null` — has a non-`VALID` status, a null move
and a null winner, so it satisfies the cross-field invariant; the
parse-failure fallback of `parseStructuredOutput` does too.  (On successfully
parsed JSON the parser validates each field independently, so the invariant
can fail there, as the counterexample shows.) -/
theorem claim_C4_amended :
    (∀ (env : Env) (calls : List CallResult),
      (judgeRoundModel env calls).outcome.raw = none →
      (judgeRoundModel env calls).outcome.result.intent.status ≠ "VALID" ∧
      (judgeRoundModel env calls).outcome.result.intent.move = none ∧
      (judgeRoundModel env calls).outcome.result.round_winner = none ∧
      crossFieldInv (judgeRoundModel env calls).outcome.result) ∧
    (∀ s : String, jsonParseL (stripFenceL (jsTrimL s.data)) = none →
      (parseStructuredOutput s).intent.status ≠ "VALID" ∧
      (parseStructuredOutput s).intent.move = none ∧
      (parseStructuredOutput s).round_winner = none ∧
      crossFieldInv (parseStructuredOutput s)) := by
  constructor
  · intro env calls h
    unfold judgeRoundModel at h ⊢
    rcases hg : getProvider env with ⟨po, k⟩
    rw [hg] at h
    cases po with
    | none => exact ⟨(by decide : ("INVALID" : String) ≠ "VALID"), rfl, rfl, fun _ => ⟨rfl, rfl⟩⟩
    | some p =>
      have := attemptLoop_raw_none_inv calls (some p) 0 h
      exact ⟨this.1, this.2.1, this.2.2, fun _ => this.2⟩
  · intro s h
    have hs : parseStructuredOutput s = parseFailResult s := by
      unfold parseStructuredOutput
      rw [h]
    rw [hs]
    exact ⟨(by decide : ("UNCLEAR" : String) ≠ "VALID"), rfl, rfl, fun _ => ⟨rfl, rfl⟩⟩

/-- C4 (amended, witness): the missing-credential outcome has a non-`VALID`
status and null move, and a concrete non-JSON reply yields a null winner. -/
theorem claim_C4_amended_witness :
    (judgeRoundModel ⟨none, none, none, none⟩ []).outcome.result.intent.status ≠ "VALID" ∧
    (judgeRoundModel ⟨none, none, none, none⟩ []).outcome.result.intent.move = none ∧
    (parseStructuredOutput "nope").round_winner = none :=
  ⟨(claim_C4_amended.1 ⟨none, none, none, none⟩ [] rfl).1,
   (claim_C4_amended.1 ⟨none, none, none, none⟩ [] rfl).2.1,
   (claim_C4_amended.2 "nope" rfl).2.2.1⟩

/-! ### Claim C7: missing credential short-circuits -/

/-- C7: without any credential, `judgeRound` returns the fixed INVALID
result with null move and winner and the fixed explanatory message, makes
zero call attempts and sleeps for no delays, whatever the provider oracle
would have answered. -/
theorem claim_C7 (env : Env) (hp : (getProvider env).1 = none) (calls : List CallResult) :
    judgeRoundModel env calls = { outcome := noKeyOutcome, attempts := 0, delays := [] } ∧
    noKeyOutcome.result.intent.status = "INVALID" ∧
    noKeyOutcome.result.intent.move = none ∧
    noKeyOutcome.result.round_winner = none ∧
    noKeyOutcome.result.intent.reason =
      "No API key. Set GEMINI_API_KEY or ANTHROPIC_API_KEY in .env." ∧
    noKeyOutcome.result.response =
      "Cannot run AI Judge: set either GEMINI_API_KEY or ANTHROPIC_API_KEY in .env." := by
  refine ⟨?_, rfl, rfl, rfl, rfl, rfl⟩
  unfold judgeRoundModel
  rcases hg : getProvider env with ⟨po, k⟩
  rw [hg] at hp
  cases po with
  | none => rfl
  | some p => exact absurd hp (by simp)

/-- C7 (witness): an all-empty credential environment with a would-be
successful call available. -/
theorem claim_C7_witness :
    judgeRoundModel ⟨none, none, none, none⟩ [CallResult.ok "x"] =
      { outcome := noKeyOutcome, attempts := 0, delays := [] } :=
  (claim_C7 ⟨none, none, none, none⟩ rfl [CallResult.ok "x"]).1

/-! ### Claim C8: the retry policy -/

theorem attemptLoop_attempts_le (calls : List CallResult) :
    ∀ (prov : Option String) (attempt : Nat), attempt ≤ 2 →
      (attemptLoop prov attempt calls).attempts ≤ 3 - attempt := by
  induction calls with
  | nil =>
    intro prov attempt h
    simp [attemptLoop]
  | cons c rest ih =>
    intro prov attempt h
    cases c with
    | ok s =>
      by_cases he : (jsTrim s).data.isEmpty <;> simp [attemptLoop, he] <;> omega
    | err m =>
      by_cases hq : attempt < MAX_RETRIES ∧ isQuotaError (some m)
      · simp only [attemptLoop, if_pos hq]
        have ha : attempt < 2 := by simpa [MAX_RETRIES] using hq.1
        have h2 := ih prov (attempt + 1) (by omega)
        omega
      · simp only [attemptLoop, if_neg hq]
        omega

theorem attemptLoop_retries (calls : List CallResult) :
    ∀ (prov : Option String) (attempt i : Nat),
      i + 2 ≤ (attemptLoop prov attempt calls).attempts →
      ∃ m, calls.get? i = some (CallResult.err m) ∧ isQuotaError (some m) = true ∧
        (attemptLoop prov attempt calls).delays.get? i = some (parseRetryDelayMs (some m)) := by
  induction calls with
  | nil =>
    intro prov attempt i h
    simp [attemptLoop] at h
  | cons c rest ih =>
    intro prov attempt i h
    cases c with
    | ok s =>
      by_cases he : (jsTrim s).data.isEmpty <;> simp [attemptLoop, he] at h
    | err m =>
      by_cases hq : attempt < MAX_RETRIES ∧ isQuotaError (some m)
      · simp only [attemptLoop, if_pos hq] at h ⊢
        cases i with
        | zero => exact ⟨m, rfl, hq.2, rfl⟩
        | succ i2 =>
          have := ih prov (attempt + 1) i2 (by omega)
          simpa using this
      · simp only [attemptLoop, if_neg hq] at h
        omega

theorem attemptLoop_stops (calls : List CallResult) :
    ∀ (prov : Option String) (attempt i : Nat) (m : String),
      calls.get? i = some (CallResult.err m) → isQuotaError (some m) = false →
      (attemptLoop prov attempt calls).attempts ≤ i + 1 := by
  induction calls with
  | nil =>
    intro prov attempt i m hi _
    simp at hi
  | cons c rest ih =>
    intro prov attempt i m hi hm
    cases c with
    | ok s =>
      by_cases he : (jsTrim s).data.isEmpty <;> simp [attemptLoop, he]
    | err m2 =>
      by_cases hq : attempt < MAX_RETRIES ∧ isQuotaError (some m2)
      · simp only [attemptLoop, if_pos hq]
        cases i with
        | zero =>
          simp only [List.get?] at hi
          cases hi
          exact absurd hq.2 (by simp [hm])
        | succ i2 =>
          have := ih prov (attempt + 1) i2 m (by simpa using hi) hm
          omega
      · simp only [attemptLoop, if_neg hq]
        omega

theorem judgeRoundModel_eq_loop (env : Env) (p : String)
    (hp : (getProvider env).1 = some p) (calls : List CallResult) :
    judgeRoundModel env calls = attemptLoop (some p) 0 calls := by
  unfold judgeRoundModel
  rcases hg : getProvider env with ⟨po, k⟩
  rw [hg] at hp
  cases po with
  | none => exact absurd hp (by simp)
  | some q =>
    simp only at hp
    cases hp
    rfl

/-- C8: with a credential configured, `judgeRound` makes at most 3 call
attempts; the i-th retry happens only after a recognized rate-limit error
and sleeps exactly `parseRetryDelayMs` of that error (which falls back to the
fixed 10-second default when no `retry in Xs` hint is present); any
non-rate-limit error ends the loop at once; and three consecutive rate-limit
errors exhaust the retries, yielding status INVALID and a response carrying
the wait-time estimate. -/
theorem claim_C8 (env : Env) (p : String) (hp : (getProvider env).1 = some p)
    (calls : List CallResult) :
    (judgeRoundModel env calls).attempts ≤ 3 ∧
    (∀ i, i + 2 ≤ (judgeRoundModel env calls).attempts →
      ∃ m, calls.get? i = some (CallResult.err m) ∧ isQuotaError (some m) = true ∧
        (judgeRoundModel env calls).delays.get? i = some (parseRetryDelayMs (some m))) ∧
    (∀ i m, calls.get? i = some (CallResult.err m) → isQuotaError (some m) = false →
      (judgeRoundModel env calls).attempts ≤ i + 1) ∧
    (∀ e : Option String, findRetryNum ((e.getD "").data) = none →
      parseRetryDelayMs e = DEFAULT_RETRY_MS) ∧
    (∀ m0 m1 m2 rest, calls = CallResult.err m0 :: CallResult.err m1 :: CallResult.err m2 :: rest →
      isQuotaError (some m0) = true → isQuotaError (some m1) = true →
      isQuotaError (some m2) = true →
      (judgeRoundModel env calls).attempts = 3 ∧
      (judgeRoundModel env calls).outcome.result.intent.status = "INVALID" ∧
      (judgeRoundModel env calls).outcome.result.round_winner = none ∧
      (judgeRoundModel env calls).outcome.result.response =
        "Judge error: " ++ ("Rate limit exceeded. Wait ~" ++
          toString ((parseRetryDelayMs (some m2) + 999) / 1000) ++ "s and try again.")) := by
  rw [judgeRoundModel_eq_loop env p hp calls]
  refine ⟨?_, ?_, ?_, ?_, ?_⟩
  · have := attemptLoop_attempts_le calls (some p) 0 (by omega)
    simpa using this
  · exact fun i h => attemptLoop_retries calls (some p) 0 i h
  · exact fun i m hi hm => attemptLoop_stops calls (some p) 0 i m hi hm
  · intro e h
    unfold parseRetryDelayMs
    rw [h]
  · intro m0 m1 m2 rest hc h0 h1 h2
    subst hc
    have q0 : 0 < MAX_RETRIES ∧ isQuotaError (some m0) := ⟨by simp [MAX_RETRIES], h0⟩
    have q1 : 1 < MAX_RETRIES ∧ isQuotaError (some m1) := ⟨by simp [MAX_RETRIES], h1⟩
    have q2 : ¬(2 < MAX_RETRIES ∧ isQuotaError (some m2)) := by
      simp [MAX_RETRIES]
    have hL : attemptLoop (some p) 0
        (CallResult.err m0 :: CallResult.err m1 :: CallResult.err m2 :: rest) =
        { outcome := errorOutcome (some m2) (some p), attempts := 3,
          delays := [parseRetryDelayMs (some m0), parseRetryDelayMs (some m1)] } := by
      simp only [attemptLoop, if_pos q0, if_pos q1, if_neg q2]
    rw [hL]
    refine ⟨rfl, rfl, rfl, ?_⟩
    show "Judge error: " ++ shortError (some m2) (some p) = _
    unfold shortError
    have hq : quotaPat ((some m2).getD "") = true := h2
    simp only [Option.getD] at hq ⊢
    rw [if_pos hq]

/-- C8 (witness): three consecutive rate-limit failures under a configured
key make exactly 3 attempts. -/
theorem claim_C8_witness :
    (judgeRoundModel ⟨some "k", none, none, none⟩
      [CallResult.err "429", CallResult.err "429", CallResult.err "429"]).attempts = 3 :=
  ((claim_C8 ⟨some "k", none, none, none⟩ "claude" rfl
      [CallResult.err "429", CallResult.err "429", CallResult.err "429"]).2.2.2.2
    "429" "429" "429" [] rfl rfl rfl rfl).1

/-! ### Claim C9: truncation of unclassified provider errors -/

/-- C9: for an error matching none of the rate-limit, model-not-found or
auth-failure patterns, `shortError` returns the message itself when it has at
most 120 characters and its first 120 characters followed by an ellipsis
otherwise; in both cases the summary surfaces at most the first 120
characters of the underlying message and is itself at most 121 characters
long. -/
theorem claim_C9 (msg : String) (provider : Option String)
    (hq : quotaPat msg = false) (hn : notFoundPat msg = false) (ha : authPat msg = false) :
    (120 < msg.length → shortError (some msg) provider = (⟨msg.data.take 120⟩ : String) ++ "…") ∧
    (msg.length ≤ 120 → shortError (some msg) provider = msg) ∧
    (shortError (some msg) provider).length ≤ 121 := by
  unfold shortError
  simp only [Option.getD]
  rw [if_neg (by simp [hq]), if_neg (by simp [hn]), if_neg (by simp [ha])]
  refine ⟨fun h => if_pos h, fun h => if_neg (by omega), ?_⟩
  by_cases h : 120 < msg.length
  · rw [if_pos h]
    have h1 : ((⟨msg.data.take 120⟩ : String) ++ "…").length =
        (msg.data.take 120).length + ("…".data).length := by
      show (msg.data.take 120 ++ "…".data).length = _
      exact List.length_append _ _
    have hdot : ("…".data).length = 1 := rfl
    have h2 : (msg.data.take 120).length ≤ 120 := by
      rw [List.length_take]
      omega
    omega
  · rw [if_neg h]
    omega

/-- C9 (witness): a 130-character unclassified error is summarised within the
121-character bound. -/
theorem claim_C9_witness :
    (shortError (some ⟨List.replicate 130 'z'⟩) none).length ≤ 121 :=
  (claim_C9 ⟨List.replicate 130 'z'⟩ none rfl rfl rfl).2.2

/-! ### Claim C6: serialize/parse round trip (string level) -/

theorem hexVal_hexChar : ∀ n, n < 16 → hexDigitVal (hexDigitChar n) = some n := by decide

theorem psl_quote (rest : List Char) : parseStringL ('"' :: rest) = some ([], rest) := by
  rw [parseStringL.eq_def]
  rfl

theorem psl_bs (rest : List Char) : parseStringL ('\\' :: rest) = parseEscapeL rest := by
  rw [parseStringL.eq_def]
  rfl

theorem psl_lit (c : Char) (rest : List Char)
    (h1 : ¬c = '"') (h2 : ¬c = '\\') (h8 : ¬c.toNat < 32) :
    parseStringL (c :: rest) = (parseStringL rest).map (fun p => (c :: p.1, p.2)) := by
  rw [parseStringL.eq_def]
  dsimp only
  rw [if_neg h1, if_neg h2, if_neg h8]

theorem pesc_simple (e ch : Char) (rest : List Char)
    (he : ¬e = 'u') (hd : escDecode e = some ch) :
    parseEscapeL (e :: rest) = (parseStringL rest).map (fun p => (ch :: p.1, p.2)) := by
  rw [parseEscapeL.eq_def]
  dsimp only
  rw [if_neg he, hd]

theorem pesc_u (rest : List Char) : parseEscapeL ('u' :: rest) = parseUnicodeL rest := by
  rw [parseEscapeL.eq_def]
  rfl

theorem parseStringL_escChar (c : Char) (rest : List Char) :
    parseStringL (escChar c ++ rest) = (parseStringL rest).map (fun p => (c :: p.1, p.2)) := by
  unfold escChar
  split_ifs with h1 h2 h3 h4 h5 h6 h7 h8
  · subst h1
    rw [show (['\\', '"'] ++ rest : List Char) = '\\' :: '"' :: rest from rfl, psl_bs,
      pesc_simple '"' '"' rest (by decide) rfl]
  · subst h2
    rw [show (['\\', '\\'] ++ rest : List Char) = '\\' :: '\\' :: rest from rfl, psl_bs,
      pesc_simple '\\' '\\' rest (by decide) rfl]
  · have hc : Char.ofNat 8 = c := by rw [← h3, Char.ofNat_toNat]
    rw [show (['\\', 'b'] ++ rest : List Char) = '\\' :: 'b' :: rest from rfl, psl_bs,
      pesc_simple 'b' (Char.ofNat 8) rest (by decide) rfl, hc]
  · have hc : Char.ofNat 9 = c := by rw [← h4, Char.ofNat_toNat]
    rw [show (['\\', 't'] ++ rest : List Char) = '\\' :: 't' :: rest from rfl, psl_bs,
      pesc_simple 't' (Char.ofNat 9) rest (by decide) (by rfl), hc]
  · have hc : Char.ofNat 10 = c := by rw [← h5, Char.ofNat_toNat]
    rw [show (['\\', 'n'] ++ rest : List Char) = '\\' :: 'n' :: rest from rfl, psl_bs,
      pesc_simple 'n' (Char.ofNat 10) rest (by decide) (by rfl), hc]
  · have hc : Char.ofNat 12 = c := by rw [← h6, Char.ofNat_toNat]
    rw [show (['\\', 'f'] ++ rest : List Char) = '\\' :: 'f' :: rest from rfl, psl_bs,
      pesc_simple 'f' (Char.ofNat 12) rest (by decide) rfl, hc]
  · have hc : Char.ofNat 13 = c := by rw [← h7, Char.ofNat_toNat]
    rw [show (['\\', 'r'] ++ rest : List Char) = '\\' :: 'r' :: rest from rfl, psl_bs,
      pesc_simple 'r' (Char.ofNat 13) rest (by decide) rfl, hc]
  · have e0 : hexDigitVal '0' = some 0 := rfl
    have e1 : hexDigitVal (hexDigitChar (c.toNat / 16)) = some (c.toNat / 16) :=
      hexVal_hexChar _ (by omega)
    have e2 : hexDigitVal (hexDigitChar (c.toNat % 16)) = some (c.toNat % 16) :=
      hexVal_hexChar _ (by omega)
    rw [show ('\\' :: 'u' ::
        ['0', '0', hexDigitChar (c.toNat / 16), hexDigitChar (c.toNat % 16)] ++ rest :
          List Char) =
        '\\' :: 'u' :: '0' :: '0' ::
          hexDigitChar (c.toNat / 16) :: hexDigitChar (c.toNat % 16) :: rest from rfl,
      psl_bs, pesc_u, parseUnicodeL.eq_def]
    dsimp only
    rw [e0, e1, e2]
    have hv : (((0 * 16 + 0) * 16 + c.toNat / 16) * 16 + c.toNat % 16) = c.toNat := by omega
    simp only [hv, Char.ofNat_toNat]
  · rw [show ([c] ++ rest : List Char) = c :: rest from rfl, psl_lit c rest h1 h2 h8]

theorem parseStringL_escL (s : List Char) (rest : List Char) :
    parseStringL (escL s ++ ('"' :: rest)) = some (s, rest) := by
  induction s with
  | nil =>
    rw [show escL [] ++ ('"' :: rest) = '"' :: rest from rfl, psl_quote]
  | cons c t ih =>
    have hs : escL (c :: t) = escChar c ++ escL t := by
      simp [escL]
    rw [hs, List.append_assoc, parseStringL_escChar, ih]
    rfl

theorem dropWhile_cons_of_neg {p : Char → Bool} {c : Char} (l : List Char)
    (h : ¬p c = true) : List.dropWhile p (c :: l) = c :: l := by
  rw [List.dropWhile_cons, if_neg h]

theorem parseValueL_serStr (f : Nat) (s : String) (rest : List Char) :
    parseValueL (f + 1) (serStr s ++ rest) = some (Json.str s, rest) := by
  have hs : serStr s ++ rest = '"' :: (escL s.data ++ ('"' :: rest)) := by
    simp [serStr]
  rw [hs, parseValueL.eq_def, show f + 1 = Nat.succ f from rfl]
  dsimp only
  rw [dropWhile_cons_of_neg _ (by decide)]
  show (parseStringL (escL s.data ++ ('"' :: rest))).map
      (fun p => (Json.str ⟨p.1⟩, p.2)) = some (Json.str s, rest)
  rw [parseStringL_escL]
  rfl

theorem parseStringL_keylit (ks : List Char) (rest : List Char)
    (hks : ∀ c ∈ ks, ¬c = '"' ∧ ¬c = '\\' ∧ ¬c.toNat < 32) :
    parseStringL (ks ++ ('"' :: rest)) = some (ks, rest) := by
  induction ks with
  | nil => exact psl_quote rest
  | cons c t ih =>
    have hc := hks c (by simp)
    rw [List.cons_append, psl_lit c _ hc.1 hc.2.1 hc.2.2,
      ih (fun d hd => hks d (by simp [hd]))]
    rfl

theorem parseMembersL_more {f : Nat} {key krest l r5 KR : List Char}
    {acc : List (String × Json)} {v : Json}
    (hk : parseStringL krest = some (key, ':' :: l))
    (hv : parseValueL f l = some (v, ',' :: r5))
    (hr : r5.dropWhile isJsonWs = KR) :
    parseMembersL (f + 1) ('"' :: krest) acc =
      parseMembersL f KR (acc ++ [(⟨key⟩, v)]) := by
  rw [parseMembersL.eq_def, show f + 1 = Nat.succ f from rfl]
  dsimp only
  rw [if_pos rfl, hk]
  dsimp only
  rw [dropWhile_cons_of_neg _ (by decide)]
  dsimp only
  rw [if_pos rfl, hv]
  dsimp only
  rw [dropWhile_cons_of_neg _ (by decide)]
  dsimp only
  rw [if_pos rfl, hr]

theorem parseMembersL_last {f : Nat} {key krest l r5 : List Char}
    {acc : List (String × Json)} {v : Json}
    (hk : parseStringL krest = some (key, ':' :: l))
    (hv : parseValueL f l = some (v, '}' :: r5)) :
    parseMembersL (f + 1) ('"' :: krest) acc =
      some (Json.obj (acc ++ [(⟨key⟩, v)]), r5) := by
  rw [parseMembersL.eq_def, show f + 1 = Nat.succ f from rfl]
  dsimp only
  rw [if_pos rfl, hk]
  dsimp only
  rw [dropWhile_cons_of_neg _ (by decide)]
  dsimp only
  rw [if_pos rfl, hv]
  dsimp only
  rw [dropWhile_cons_of_neg _ (by decide)]
  dsimp only
  rw [if_neg (by decide), if_pos rfl]

theorem parseValueL_serOpt (f : Nat) (o : Option String) (rest : List Char) :
    parseValueL (f + 1) (serOpt o ++ rest) = some (optJson o, rest) := by
  cases o with
  | some s => exact parseValueL_serStr f s rest
  | none =>
    rw [show serOpt none ++ rest = 'n' :: 'u' :: 'l' :: 'l' :: rest from rfl,
      parseValueL.eq_def, show f + 1 = Nat.succ f from rfl]
    dsimp only
    rw [dropWhile_cons_of_neg _ (by decide)]
    rfl

theorem parse_intent_members (f : Nat) (st : String) (mv : Option String) (rs : String)
    (rest : List Char) (acc : List (String × Json)) :
    parseMembersL (f + 4)
      ('"' :: ("status\":".data ++ (serStr st ++ (",\"move\":".data ++ (serOpt mv ++
        (",\"reason\":".data ++ (serStr rs ++ ('}' :: rest)))))))) acc =
      some (Json.obj (acc ++ [("status", Json.str st), ("move", optJson mv),
        ("reason", Json.str rs)]), rest) := by
  have hk1 : parseStringL ("status\":".data ++ (serStr st ++ (",\"move\":".data ++ (serOpt mv ++
      (",\"reason\":".data ++ (serStr rs ++ ('}' :: rest))))))) =
      some ("status".data, ':' :: (serStr st ++ (",\"move\":".data ++ (serOpt mv ++
      (",\"reason\":".data ++ (serStr rs ++ ('}' :: rest))))))) :=
    parseStringL_keylit "status".data _ (by decide)
  have hv1 : parseValueL (f + 3) (serStr st ++ (",\"move\":".data ++ (serOpt mv ++
      (",\"reason\":".data ++ (serStr rs ++ ('}' :: rest)))))) =
      some (Json.str st, ',' :: ("\"move\":".data ++ (serOpt mv ++
      (",\"reason\":".data ++ (serStr rs ++ ('}' :: rest)))))) :=
    parseValueL_serStr (f + 2) st _
  have hr1 : List.dropWhile isJsonWs ("\"move\":".data ++ (serOpt mv ++
      (",\"reason\":".data ++ (serStr rs ++ ('}' :: rest))))) =
      '"' :: ("move\":".data ++ (serOpt mv ++
      (",\"reason\":".data ++ (serStr rs ++ ('}' :: rest))))) := by
    rw [show ("\"move\":".data ++ (serOpt mv ++
      (",\"reason\":".data ++ (serStr rs ++ ('}' :: rest)))) : List Char) =
      '"' :: ("move\":".data ++ (serOpt mv ++
      (",\"reason\":".data ++ (serStr rs ++ ('}' :: rest))))) from rfl]
    exact dropWhile_cons_of_neg _ (by decide)
  rw [show f + 4 = (f + 3) + 1 from rfl, parseMembersL_more hk1 hv1 hr1]
  have hk2 : parseStringL ("move\":".data ++ (serOpt mv ++
      (",\"reason\":".data ++ (serStr rs ++ ('}' :: rest))))) =
      some ("move".data, ':' :: (serOpt mv ++
      (",\"reason\":".data ++ (serStr rs ++ ('}' :: rest))))) :=
    parseStringL_keylit "move".data _ (by decide)
  have hv2 : parseValueL (f + 2) (serOpt mv ++
      (",\"reason\":".data ++ (serStr rs ++ ('}' :: rest)))) =
      some (optJson mv, ',' :: ("\"reason\":".data ++ (serStr rs ++ ('}' :: rest)))) :=
    parseValueL_serOpt (f + 1) mv _
  have hr2 : List.dropWhile isJsonWs ("\"reason\":".data ++ (serStr rs ++ ('}' :: rest))) =
      '"' :: ("reason\":".data ++ (serStr rs ++ ('}' :: rest))) := by
    rw [show ("\"reason\":".data ++ (serStr rs ++ ('}' :: rest)) : List Char) =
      '"' :: ("reason\":".data ++ (serStr rs ++ ('}' :: rest))) from rfl]
    exact dropWhile_cons_of_neg _ (by decide)
  rw [show f + 3 = (f + 2) + 1 from rfl, parseMembersL_more hk2 hv2 hr2]
  have hk3 : parseStringL ("reason\":".data ++ (serStr rs ++ ('}' :: rest))) =
      some ("reason".data, ':' :: (serStr rs ++ ('}' :: rest))) :=
    parseStringL_keylit "reason".data _ (by decide)
  have hv3 : parseValueL (f + 1) (serStr rs ++ ('}' :: rest)) =
      some (Json.str rs, '}' :: rest) :=
    parseValueL_serStr f rs _
  rw [show f + 2 = (f + 1) + 1 from rfl, parseMembersL_last hk3 hv3]
  simp

theorem parse_intent_obj (f : Nat) (st : String) (mv : Option String) (rs : String)
    (rest : List Char) :
    parseValueL (f + 5)
      ('{' :: ("\"status\":".data ++ (serStr st ++ (",\"move\":".data ++ (serOpt mv ++
        (",\"reason\":".data ++ (serStr rs ++ ('}' :: rest)))))))) =
      some (Json.obj [("status", Json.str st), ("move", optJson mv),
        ("reason", Json.str rs)], rest) := by
  rw [parseValueL.eq_def, show f + 5 = Nat.succ (f + 4) from rfl]
  dsimp only
  rw [dropWhile_cons_of_neg _ (by decide)]
  dsimp only
  rw [if_pos rfl]
  rw [show ("\"status\":".data ++ (serStr st ++ (",\"move\":".data ++ (serOpt mv ++
      (",\"reason\":".data ++ (serStr rs ++ ('}' :: rest)))))) : List Char) =
      '"' :: ("status\":".data ++ (serStr st ++ (",\"move\":".data ++ (serOpt mv ++
      (",\"reason\":".data ++ (serStr rs ++ ('}' :: rest))))))) from rfl]
  rw [dropWhile_cons_of_neg _ (by decide)]
  dsimp only
  rw [if_neg (by decide)]
  have := parse_intent_members f st mv rs rest []
  rw [this]
  rfl

theorem parse_serialized (f : Nat) (r : JudgeResult) :
    parseValueL (f + 7) (serializeJudgeResultL r) = some (jsonOfJudgeResult r, []) := by
  obtain ⟨⟨st, mv, rs⟩, w, resp⟩ := r
  have hshape : serializeJudgeResultL ⟨⟨st, mv, rs⟩, w, resp⟩ =
      ('{' :: ('\"' :: ("intent\":\x7b\"status\":".data ++ (serStr st ++ (",\"move\":".data ++ (serOpt mv ++ (",\"reason\":".data ++ (serStr rs ++ ('}' :: (',' :: ("\"round_winner\":".data ++ (serOpt w ++ (",\"response\":".data ++ (serStr resp ++ ['}'])))))))))))))) := rfl
  rw [hshape, parseValueL.eq_def, show f + 7 = Nat.succ (f + 6) from rfl]
  dsimp only
  rw [dropWhile_cons_of_neg _ (by decide)]
  dsimp only
  rw [if_pos rfl]
  rw [dropWhile_cons_of_neg _ (by decide)]
  dsimp only
  rw [if_neg (by decide)]
  have hk1 : parseStringL ("intent\":\x7b\"status\":".data ++ (serStr st ++ (",\"move\":".data ++ (serOpt mv ++ (",\"reason\":".data ++ (serStr rs ++ ('}' :: (',' :: ("\"round_winner\":".data ++ (serOpt w ++ (",\"response\":".data ++ (serStr resp ++ ['}'])))))))))))) =
      some ("intent".data, (':' :: ('{' :: ("\"status\":".data ++ (serStr st ++ (",\"move\":".data ++ (serOpt mv ++ (",\"reason\":".data ++ (serStr rs ++ ('}' :: (',' :: ("\"round_winner\":".data ++ (serOpt w ++ (",\"response\":".data ++ (serStr resp ++ ['}']))))))))))))))) :=
    parseStringL_keylit "intent".data _ (by decide)
  have hv1 : parseValueL (f + 5) ('{' :: ("\"status\":".data ++ (serStr st ++ (",\"move\":".data ++ (serOpt mv ++ (",\"reason\":".data ++ (serStr rs ++ ('}' :: (',' :: ("\"round_winner\":".data ++ (serOpt w ++ (",\"response\":".data ++ (serStr resp ++ ['}']))))))))))))) =
      some (Json.obj [("status", Json.str st), ("move", optJson mv), ("reason", Json.str rs)], (',' :: ("\"round_winner\":".data ++ (serOpt w ++ (",\"response\":".data ++ (serStr resp ++ ['}'])))))) :=
    parse_intent_obj f st mv rs _
  have hr1 : List.dropWhile isJsonWs ("\"round_winner\":".data ++ (serOpt w ++ (",\"response\":".data ++ (serStr resp ++ ['}'])))) =
      ('\"' :: ("round_winner\":".data ++ (serOpt w ++ (",\"response\":".data ++ (serStr resp ++ ['}']))))) := by
    rw [show ("\"round_winner\":".data ++ (serOpt w ++ (",\"response\":".data ++ (serStr resp ++ ['}'])))) = ('\"' :: ("round_winner\":".data ++ (serOpt w ++ (",\"response\":".data ++ (serStr resp ++ ['}']))))) from rfl]
    exact dropWhile_cons_of_neg _ (by decide)
  rw [show f + 6 = (f + 5) + 1 from rfl, parseMembersL_more hk1 hv1 hr1]
  have hk2 : parseStringL ("round_winner\":".data ++ (serOpt w ++ (",\"response\":".data ++ (serStr resp ++ ['}'])))) =
      some ("round_winner".data, (':' :: (serOpt w ++ (",\"response\":".data ++ (serStr resp ++ ['}']))))) :=
    parseStringL_keylit "round_winner".data _ (by decide)
  have hv2 : parseValueL (f + 4) (serOpt w ++ (",\"response\":".data ++ (serStr resp ++ ['}']))) =
      some (optJson w, (',' :: ("\"response\":".data ++ (serStr resp ++ ['}'])))) :=
    parseValueL_serOpt (f + 3) w _
  have hr2 : List.dropWhile isJsonWs ("\"response\":".data ++ (serStr resp ++ ['}'])) =
      ('\"' :: ("response\":".data ++ (serStr resp ++ ['}']))) := by
    rw [show ("\"response\":".data ++ (serStr resp ++ ['}'])) = ('\"' :: ("response\":".data ++ (serStr resp ++ ['}']))) from rfl]
    exact dropWhile_cons_of_neg _ (by decide)
  rw [show f + 5 = (f + 4) + 1 from rfl, parseMembersL_more hk2 hv2 hr2]
  have hk3 : parseStringL ("response\":".data ++ (serStr resp ++ ['}'])) =
      some ("response".data, (':' :: (serStr resp ++ ['}']))) :=
    parseStringL_keylit "response".data _ (by decide)
  have hv3 : parseValueL (f + 3) (serStr resp ++ ['}']) =
      some (Json.str resp, '}' :: []) :=
    parseValueL_serStr (f + 2) resp _
  rw [show f + 4 = (f + 3) + 1 from rfl, parseMembersL_last hk3 hv3]
  simp [jsonOfJudgeResult]

theorem jsonParseL_serialized (r : JudgeResult) :
    jsonParseL (serializeJudgeResultL r) = some (jsonOfJudgeResult r) := by
  have hlen : 6 ≤ (serializeJudgeResultL r).length := by
    unfold serializeJudgeResultL
    rw [List.length_append]
    have h21 : ("\x7b\"intent\":\x7b\"status\":".data).length = 20 := by decide
    omega
  have hf : (serializeJudgeResultL r).length + 1 =
      ((serializeJudgeResultL r).length - 6) + 7 := by omega
  unfold jsonParseL
  rw [hf, parse_serialized]
  rfl

theorem getLastQ_append (A B : List Char) (c : Char) (h : B.getLast? = some c) :
    (A ++ B).getLast? = some c := by
  have hr : B.reverse.head? = some c := by rw [List.head?_reverse]; exact h
  rw [← List.head?_reverse, List.reverse_append]
  cases hBr : B.reverse with
  | nil => rw [hBr] at hr; cases hr
  | cons x t =>
    rw [hBr] at hr
    simpa using hr

theorem serialized_getLast (r : JudgeResult) :
    (serializeJudgeResultL r).getLast? = some '}' := by
  unfold serializeJudgeResultL
  apply getLastQ_append
  apply getLastQ_append
  apply getLastQ_append
  apply getLastQ_append
  apply getLastQ_append
  apply getLastQ_append
  apply getLastQ_append
  apply getLastQ_append
  apply getLastQ_append
  exact List.getLast?_concat _

theorem jsTrimL_id (l : List Char) (h1 : ∀ c, l.head? = some c → isWsChar c = false)
    (h2 : ∀ c, l.getLast? = some c → isWsChar c = false) : jsTrimL l = l := by
  unfold jsTrimL dropTrailingWs
  have e1 : l.dropWhile isWsChar = l := by
    cases l with
    | nil => rfl
    | cons a t =>
      rw [List.dropWhile_cons, if_neg (by simp [h1 a rfl])]
  rw [e1]
  cases hr : l.reverse with
  | nil =>
    have : l = [] := by simpa using congrArg List.reverse hr
    subst this
    rfl
  | cons a t =>
    have ha : l.getLast? = some a := by rw [← List.head?_reverse, hr]; rfl
    rw [List.dropWhile_cons, if_neg (by simp [h2 a ha]), ← hr, List.reverse_reverse]

theorem jsTrim_serialized (r : JudgeResult) :
    jsTrimL (serializeJudgeResultL r) = serializeJudgeResultL r := by
  apply jsTrimL_id
  · intro c hc
    have hh : (serializeJudgeResultL r).head? = some '{' := rfl
    rw [hh] at hc
    cases hc
    rfl
  · intro c hc
    rw [serialized_getLast r] at hc
    cases hc
    rfl

theorem stripFence_serialized (r : JudgeResult) :
    stripFenceL (serializeJudgeResultL r) = serializeJudgeResultL r := by
  unfold stripFenceL
  have ht : (serializeJudgeResultL r).take 3 = ['{', '"', 'i'] := rfl
  rw [if_neg (by rw [ht]; decide)]

theorem validate_jsonOf (r : JudgeResult) (hst : r.intent.status ∈ statusList)
    (hmv : ∀ m, r.intent.move = some m → m ∈ moveList)
    (hw : ∀ x, r.round_winner = some x → x ∈ winnerList) :
    intentOf (jsonOfJudgeResult r) = r.intent ∧
    winnerOf (jsonOfJudgeResult r) = r.round_winner ∧
    responseOf (jsonOfJudgeResult r) = r.response := by
  refine ⟨?_, ?_, ?_⟩
  · have hint : getField (jsonOfJudgeResult r) "intent" =
        some (Json.obj [("status", Json.str r.intent.status),
          ("move", optJson r.intent.move), ("reason", Json.str r.intent.reason)]) := rfl
    unfold intentOf
    rw [hint]
    dsimp only [isObjectLike]
    rw [if_pos rfl]
    have hstatus : statusOfIntentJ (Json.obj [("status", Json.str r.intent.status),
        ("move", optJson r.intent.move), ("reason", Json.str r.intent.reason)]) =
        r.intent.status := by
      unfold statusOfIntentJ
      have hfs : getField (Json.obj [("status", Json.str r.intent.status),
          ("move", optJson r.intent.move), ("reason", Json.str r.intent.reason)]) "status" =
          some (Json.str r.intent.status) := rfl
      rw [hfs]
      dsimp only
      rw [if_pos (by simpa using hst)]
    have hmove : moveOfIntentJ (Json.obj [("status", Json.str r.intent.status),
        ("move", optJson r.intent.move), ("reason", Json.str r.intent.reason)]) =
        r.intent.move := by
      cases hm : r.intent.move with
      | none => rfl
      | some m =>
        unfold moveOfIntentJ
        rw [show getField (Json.obj [("status", Json.str r.intent.status),
          ("move", optJson (some m)), ("reason", Json.str r.intent.reason)]) "move" =
          some (optJson (some m)) from rfl]
        dsimp only [optJson]
        rw [if_pos (by simpa using hmv m hm)]
    have hreason : reasonOfIntentJ (Json.obj [("status", Json.str r.intent.status),
        ("move", optJson r.intent.move), ("reason", Json.str r.intent.reason)]) =
        r.intent.reason := by
      unfold reasonOfIntentJ
      rw [show getField (Json.obj [("status", Json.str r.intent.status),
        ("move", optJson r.intent.move), ("reason", Json.str r.intent.reason)]) "reason" =
        some (Json.str r.intent.reason) from rfl]
      dsimp only
      simp [jsToString]
    rw [hstatus, hmove, hreason]
  · have hfw : getField (jsonOfJudgeResult r) "round_winner" =
        some (optJson r.round_winner) := rfl
    unfold winnerOf
    rw [hfw]
    cases hm : r.round_winner with
    | none => rfl
    | some x =>
      dsimp only [optJson]
      rw [if_pos (by simpa using hw x hm)]
  · have hfr : getField (jsonOfJudgeResult r) "response" =
        some (Json.str r.response) := rfl
    unfold responseOf
    rw [hfr]

/-- C6: the result parser round-trips — a record whose enum fields hold valid
values, serialized in the exact output shape (with any reason/response
strings, escaped as `JSON.stringify` does), parses back to field-identical
values. -/
theorem claim_C6 (r : JudgeResult) (hst : r.intent.status ∈ statusList)
    (hmv : ∀ m, r.intent.move = some m → m ∈ moveList)
    (hw : ∀ x, r.round_winner = some x → x ∈ winnerList) :
    parseStructuredOutput (serializeJudgeResult r) = r := by
  have hv := validate_jsonOf r hst hmv hw
  unfold parseStructuredOutput
  rw [show (serializeJudgeResult r).data = serializeJudgeResultL r from rfl,
    jsTrim_serialized, stripFence_serialized, jsonParseL_serialized]
  unfold jsonOfJudgeResult at hv ⊢
  dsimp only
  rw [hv.1, hv.2.1, hv.2.2]

/-- C6 (witness): the scenario record of the spec round-trips. -/
theorem claim_C6_witness :
    parseStructuredOutput (serializeJudgeResult
      { intent := { status := "VALID", move := some "rock", reason := "clear" },
        round_winner := some "user", response := "You win" }) =
      { intent := { status := "VALID", move := some "rock", reason := "clear" },
        round_winner := some "user", response := "You win" } :=
  claim_C6 _ (by decide) (by intro m hm; cases hm; decide) (by intro x hx; cases hx; decide)

/-! ### Claim C10: properties of the input normalizer -/

theorem wordChar_not_ws (c : Char) (h : isWordChar c = true) : isWsChar c = false := by
  simp only [isWordChar, isWsChar, Bool.or_eq_true, Bool.and_eq_true,
    Bool.or_eq_false_iff, decide_eq_true_eq, decide_eq_false_iff_not] at h ⊢
  omega

theorem wsChar_not_word (c : Char) (h : isWsChar c = true) : isWordChar c = false := by
  simp only [isWordChar, isWsChar, Bool.or_eq_true, Bool.and_eq_true,
    Bool.or_eq_false_iff, Bool.and_eq_false_iff, decide_eq_true_eq,
    decide_eq_false_iff_not] at h ⊢
  omega

theorem toLowerC_lower_word (c : Char) (h : 97 ≤ (toLowerC c).toNat ∧ (toLowerC c).toNat ≤ 122) :
    isWordChar c = true := by
  unfold toLowerC at h
  by_cases hc : 65 ≤ c.toNat ∧ c.toNat ≤ 90
  · simp only [isWordChar, Bool.or_eq_true, Bool.and_eq_true, decide_eq_true_eq]
    omega
  · rw [if_neg hc] at h
    simp only [isWordChar, Bool.or_eq_true, Bool.and_eq_true, decide_eq_true_eq]
    omega

theorem takeWhile_append_of_all {p : Char → Bool} (xs ys : List Char)
    (h : ∀ x ∈ xs, p x = true) :
    (xs ++ ys).takeWhile p = xs ++ ys.takeWhile p := by
  induction xs with
  | nil => simp
  | cons a t ih =>
    rw [List.cons_append, List.takeWhile_cons, if_pos (h a (by simp)), List.cons_append,
      ih (fun x hx => h x (by simp [hx]))]

theorem dropWhile_append_of_all {p : Char → Bool} (xs ys : List Char)
    (h : ∀ x ∈ xs, p x = true) :
    (xs ++ ys).dropWhile p = ys.dropWhile p := by
  induction xs with
  | nil => simp
  | cons a t ih =>
    rw [List.cons_append, List.dropWhile_cons, if_pos (h a (by simp)),
      ih (fun x hx => h x (by simp [hx]))]

theorem dropWhile_head_false {p : Char → Bool} (l : List Char) (d : Char)
    (h : (l.dropWhile p).head? = some d) : p d = false := by
  induction l with
  | nil => simp at h
  | cons a t ih =>
    rw [List.dropWhile_cons] at h
    by_cases hp : p a = true
    · rw [if_pos hp] at h
      exact ih h
    · rw [if_neg hp] at h
      simp at h
      subst h
      simpa using hp

theorem segs_cons_eq (c : Char) (cs : List Char) :
    segs (c :: cs) =
      (c :: cs.takeWhile (fun d => isWordChar d == isWordChar c)) ::
        segs (cs.dropWhile (fun d => isWordChar d == isWordChar c)) := by
  rw [segs]

theorem segs_append_run (a rest : List Char) (k : Bool) (ha : a ≠ [])
    (hu : ∀ c ∈ a, isWordChar c = k)
    (hr : ∀ d, rest.head? = some d → isWordChar d ≠ k) :
    segs (a ++ rest) = a :: segs rest := by
  cases a with
  | nil => exact absurd rfl ha
  | cons c a2 =>
    have hck : isWordChar c = k := hu c (by simp)
    rw [List.cons_append, segs_cons_eq]
    have htk : (a2 ++ rest).takeWhile (fun d => isWordChar d == isWordChar c) = a2 := by
      rw [takeWhile_append_of_all a2 rest
        (fun x hx => by simp [hu x (by simp [hx]), hck])]
      have : rest.takeWhile (fun d => isWordChar d == isWordChar c) = [] := by
        cases hrest : rest with
        | nil => rfl
        | cons d t =>
          rw [List.takeWhile_cons, if_neg]
          simp only [beq_iff_eq, hck]
          exact hr d (by rw [hrest]; rfl)
      rw [this, List.append_nil]
    have hdk : (a2 ++ rest).dropWhile (fun d => isWordChar d == isWordChar c) = rest := by
      rw [dropWhile_append_of_all a2 rest
        (fun x hx => by simp [hu x (by simp [hx]), hck])]
      cases hrest : rest with
      | nil => rfl
      | cons d t =>
        rw [List.dropWhile_cons, if_neg]
        simp only [beq_iff_eq, hck]
        exact hr d (by rw [hrest]; rfl)
    rw [htk, hdk]

theorem segs_flatten (l : List Char) : (segs l).flatten = l := by
  induction l using segs.induct with
  | case1 => simp [segs]
  | case2 c cs ih =>
    rw [segs_cons_eq, List.flatten_cons, ih, List.cons_append,
      List.takeWhile_append_dropWhile]

theorem segs_props (l : List Char) :
    ∀ s ∈ segs l, s ≠ [] ∧ ∀ c ∈ s, isWordChar c = runKind s := by
  induction l using segs.induct with
  | case1 => simp [segs]
  | case2 c cs ih =>
    intro s hs
    rw [segs_cons_eq] at hs
    rcases List.mem_cons.mp hs with h | h
    · subst h
      refine ⟨by simp, ?_⟩
      intro d hd
      rcases List.mem_cons.mp hd with h2 | h2
      · subst h2; rfl
      · have := List.mem_takeWhile_imp h2
        simp only [beq_iff_eq] at this
        simpa [runKind] using this
    · exact ih s h

theorem segs_head_of_head (l : List Char) (d : Char) (hd : l.head? = some d) :
    ∃ s tl, segs l = s :: tl ∧ s.head? = some d := by
  cases l with
  | nil => simp at hd
  | cons c cs =>
    simp only [List.head?_cons, Option.some.injEq] at hd
    subst hd
    exact ⟨_, _, segs_cons_eq c cs, rfl⟩

theorem segs_chain (l : List Char) :
    List.Chain' (fun a b => runKind a ≠ runKind b) (segs l) := by
  induction l using segs.induct with
  | case1 => simp [segs]
  | case2 c cs ih =>
    rw [segs_cons_eq]
    cases hrest : segs (cs.dropWhile (fun d => isWordChar d == isWordChar c)) with
    | nil => simp
    | cons s tl =>
      rw [hrest] at ih
      refine List.chain'_cons.mpr ⟨?_, ih⟩
      cases hdw : (cs.dropWhile (fun d => isWordChar d == isWordChar c)) with
      | nil => rw [hdw] at hrest; simp [segs] at hrest
      | cons d t =>
        have hpd : (fun e => isWordChar e == isWordChar c) d = false :=
          dropWhile_head_false cs d (by rw [hdw]; rfl)
        simp only [beq_eq_false_iff_ne, ne_eq] at hpd
        obtain ⟨s2, tl2, hseq, hs2⟩ := segs_head_of_head (d :: t) d rfl
        rw [← hdw, hrest] at hseq
        injection hseq with h1 h2
        subst h1
        cases hs : s with
        | nil => rw [hs] at hs2; simp at hs2
        | cons x xs =>
          rw [hs] at hs2
          simp only [List.head?_cons, Option.some.injEq] at hs2
          subst hs2
          simp only [runKind]
          exact fun h => hpd h.symm

theorem flatten_head_of (runs : List (List Char)) (a : List Char) (tl : List (List Char))
    (hr : runs = a :: tl) (c : Char) (hc : a.head? = some c) :
    runs.flatten.head? = some c := by
  subst hr
  cases a with
  | nil => simp at hc
  | cons x xs =>
    simp only [List.head?_cons, Option.some.injEq] at hc
    subst hc
    rfl

theorem segs_join (runs : List (List Char))
    (hne : ∀ s ∈ runs, s ≠ [])
    (hu : ∀ s ∈ runs, ∀ c ∈ s, isWordChar c = runKind s)
    (hch : List.Chain' (fun a b => runKind a ≠ runKind b) runs) :
    segs runs.flatten = runs := by
  induction runs with
  | nil => simp [segs]
  | cons a tl ih =>
    rw [List.flatten_cons]
    rw [segs_append_run a tl.flatten (runKind a) (hne a (by simp))
      (hu a (by simp)) ?hhead]
    · rw [ih (fun s hs => hne s (by simp [hs])) (fun s hs => hu s (by simp [hs]))
        (List.Chain'.tail hch)]
    case hhead =>
      intro d hd
      cases htl : tl with
      | nil => rw [htl] at hd; simp at hd
      | cons b tl2 =>
        rw [htl] at hd
        have hbne : b ≠ [] := hne b (by simp [htl])
        cases hb : b with
        | nil => exact absurd hb hbne
        | cons x xs =>
          have hx : (b :: tl2).flatten.head? = some x := by
            apply flatten_head_of _ b tl2 rfl
            rw [hb]; rfl
          rw [hx] at hd
          cases hd
          have hkb : isWordChar d = runKind b := by
            apply hu b (by simp [htl])
            rw [hb]; simp
          have : runKind a ≠ runKind b := by
            have := List.chain'_cons.mp (by rw [htl] at hch; exact hch)
            exact this.1
          rw [hkb]
          exact fun h => this h.symm

theorem lower_isWord (ch : Char) (h : 97 ≤ ch.toNat ∧ ch.toNat ≤ 122) :
    isWordChar ch = true := by
  simp only [isWordChar, Bool.or_eq_true, Bool.and_eq_true, decide_eq_true_eq]
  omega

theorem typoLookup_chars (k c : String) (h : typoLookup k = some c) :
    (∀ ch ∈ k.data, 97 ≤ ch.toNat ∧ ch.toNat ≤ 122) ∧
    (∀ ch ∈ c.data, 97 ≤ ch.toNat ∧ ch.toNat ≤ 122) ∧ c.data ≠ [] := by
  unfold typoLookup at h
  split_ifs at h with h1 h2 h3 h4
  · cases h
    rcases h1 with h1 | h1 | h1 | h1 | h1 <;> subst h1 <;>
      exact ⟨by decide, by decide, by decide⟩
  · cases h
    rcases h2 with h2 | h2 | h2 <;> subst h2 <;>
      exact ⟨by decide, by decide, by decide⟩
  · cases h
    rcases h3 with h3 | h3 | h3 | h3 <;> subst h3 <;>
      exact ⟨by decide, by decide, by decide⟩
  · cases h
    rcases h4 with h4 | h4 | h4 <;> subst h4 <;>
      exact ⟨by decide, by decide, by decide⟩

theorem typoLookup_fix (k c : String) (h : typoLookup k = some c) :
    replSeg c.data = c.data := by
  unfold typoLookup at h
  split_ifs at h with h1 h2 h3 h4 <;> cases h <;> decide

theorem replSeg_word_of_typo (s : List Char) (c : String)
    (h : typoLookup ⟨lowerL s⟩ = some c) : ∀ ch ∈ s, isWordChar ch = true := by
  have hk := (typoLookup_chars _ _ h).1
  intro ch hch
  have hm : toLowerC ch ∈ lowerL s := List.mem_map_of_mem _ hch
  exact toLowerC_lower_word ch (hk _ hm)

theorem replSeg_props (s : List Char) (hne : s ≠ [])
    (hu : ∀ ch ∈ s, isWordChar ch = runKind s) :
    replSeg s ≠ [] ∧ (∀ ch ∈ replSeg s, isWordChar ch = runKind (replSeg s)) ∧
    runKind (replSeg s) = runKind s := by
  cases h : typoLookup ⟨lowerL s⟩ with
  | none =>
    have e : replSeg s = s := by unfold replSeg; rw [h]
    rw [e]
    exact ⟨hne, hu, rfl⟩
  | some c =>
    have e : replSeg s = c.data := by unfold replSeg; rw [h]
    obtain ⟨hkk, hcc, hcne⟩ := typoLookup_chars _ _ h
    have hcw : ∀ ch ∈ c.data, isWordChar ch = true := fun ch hch => lower_isWord ch (hcc ch hch)
    have hkc : runKind c.data = true := by
      cases hc2 : c.data with
      | nil => exact absurd hc2 hcne
      | cons x xs =>
        simp only [runKind]
        exact hcw x (by simp [hc2])
    have hsw : runKind s = true := by
      cases hs2 : s with
      | nil => exact absurd hs2 hne
      | cons x xs =>
        simp only [runKind]
        exact replSeg_word_of_typo s c h x (by simp [hs2])
    rw [e]
    refine ⟨hcne, ?_, by rw [hkc, hsw]⟩
    intro ch hch
    rw [hkc]
    exact hcw ch hch

theorem replSeg_idem (s : List Char) : replSeg (replSeg s) = replSeg s := by
  cases h : typoLookup ⟨lowerL s⟩ with
  | none =>
    have e : replSeg s = s := by unfold replSeg; rw [h]
    rw [e]
    exact e
  | some c =>
    have e : replSeg s = c.data := by unfold replSeg; rw [h]
    rw [e]
    exact typoLookup_fix _ _ h

theorem replSeg_of_nonword (s : List Char) (c : Char) (hc : c ∈ s)
    (hw : isWordChar c = false) : replSeg s = s := by
  cases h : typoLookup ⟨lowerL s⟩ with
  | none => unfold replSeg; rw [h]
  | some k =>
    have := replSeg_word_of_typo s k h c hc
    rw [this] at hw
    cases hw

theorem jsTrimL_head_not_ws (l : List Char) (c : Char)
    (h : (jsTrimL l).head? = some c) : isWsChar c = false := by
  unfold jsTrimL dropTrailingWs at h
  have hd : l.dropWhile isWsChar =
      ((l.dropWhile isWsChar).reverse.dropWhile isWsChar).reverse ++
        ((l.dropWhile isWsChar).reverse.takeWhile isWsChar).reverse := by
    conv_lhs => rw [← List.reverse_reverse (l.dropWhile isWsChar),
      ← List.takeWhile_append_dropWhile (p := isWsChar)
        (l := (l.dropWhile isWsChar).reverse)]
    rw [List.reverse_append]
  cases hrec : ((l.dropWhile isWsChar).reverse.dropWhile isWsChar).reverse with
  | nil => rw [hrec] at h; simp at h
  | cons a t =>
    rw [hrec] at h
    simp only [List.head?_cons, Option.some.injEq] at h
    subst h
    have hx : (l.dropWhile isWsChar).head? = some a := by
      rw [hd, hrec]
      rfl
    exact dropWhile_head_false l a hx

theorem jsTrimL_last_not_ws (l : List Char) (c : Char)
    (h : (jsTrimL l).getLast? = some c) : isWsChar c = false := by
  unfold jsTrimL dropTrailingWs at h
  rw [List.getLast?_reverse] at h
  exact dropWhile_head_false (l.dropWhile isWsChar).reverse c h

theorem jsTrimL_id_of_trimmed (l : List Char) :
    jsTrimL (jsTrimL l) = jsTrimL l := by
  apply jsTrimL_id
  · exact jsTrimL_head_not_ws l
  · exact jsTrimL_last_not_ws l

theorem jsTrimL_all_ws (l : List Char) (h : ∀ c ∈ l, isWsChar c = true) :
    jsTrimL l = [] := by
  have e : l.dropWhile isWsChar = [] := by
    rw [List.dropWhile_eq_nil_iff]
    exact h
  unfold jsTrimL
  rw [e]
  rfl

theorem isEmpty_false_of_ne {l : List Char} (h : l ≠ []) : l.isEmpty = false := by
  cases l with
  | nil => exact absurd rfl h
  | cons a t => rfl

theorem lowerL_isEmpty_false (l : List Char) (h : l ≠ []) : (lowerL l).isEmpty = false := by
  cases l with
  | nil => exact absurd rfl h
  | cons a t => rfl

theorem nmi_empty (r : String) (h : jsTrimL r.data = []) :
    normalizeMoveInput r = (⟨jsTrimL r.data⟩ : String) := by
  unfold normalizeMoveInput
  rw [if_pos (by rw [h]; rfl)]

theorem nmi_words (r : String) (h0 : jsTrimL r.data ≠ [])
    (hws : (jsTrimL r.data).any isWsChar = true) :
    normalizeMoveInput r = normalizeWords (⟨jsTrimL r.data⟩ : String) := by
  unfold normalizeMoveInput
  rw [if_neg (by rw [isEmpty_false_of_ne h0]; exact Bool.false_ne_true), if_pos hws]

theorem nmi_exact (r : String) (h0 : jsTrimL r.data ≠ [])
    (hws : (jsTrimL r.data).any isWsChar = false) :
    normalizeMoveInput r = normalizeExact (⟨jsTrimL r.data⟩ : String) := by
  unfold normalizeMoveInput
  rw [if_neg (by rw [isEmpty_false_of_ne h0]; exact Bool.false_ne_true),
    if_neg (by rw [hws]; exact Bool.false_ne_true)]

theorem normalizeExact_trimmed (x : String) (l : List Char) (hx : x.data = l)
    (hne : l ≠ []) (htr : jsTrimL l = l) :
    normalizeExact x =
      match typoLookup (⟨lowerL l⟩ : String) with
      | some c => c
      | none =>
        if CANONICAL.contains (⟨lowerL l⟩ : String) then (⟨lowerL l⟩ : String) else x := by
  unfold normalizeExact
  rw [hx, htr, if_neg (by rw [lowerL_isEmpty_false l hne]; exact Bool.false_ne_true)]

theorem typoLookup_canon (k c : String) (h : typoLookup k = some c) : c ∈ CANONICAL := by
  unfold typoLookup at h
  split_ifs at h <;> cases h <;> decide

theorem canonical_contains_mem (x : String) (h : CANONICAL.contains x = true) :
    x ∈ CANONICAL := by
  have h2 : x = "rock" ∨ x = "paper" ∨ x = "scissors" ∨ x = "bomb" := by
    simpa [CANONICAL] using h
  rcases h2 with h2 | h2 | h2 | h2 <;> subst h2 <;> decide

theorem canon_fixed (c : String) (h : c ∈ CANONICAL) : normalizeMoveInput c = c := by
  have h2 : c = "rock" ∨ c = "paper" ∨ c = "scissors" ∨ c = "bomb" := by
    simpa [CANONICAL] using h
  rcases h2 with h2 | h2 | h2 | h2 <;> subst h2 <;> decide

theorem chain_imp_mem {R Q : List Char → List Char → Prop} :
    ∀ L : List (List Char), (∀ a ∈ L, ∀ b ∈ L, R a b → Q a b) →
      List.Chain' R L → List.Chain' Q L := by
  intro L
  induction L with
  | nil => exact fun _ _ => List.chain'_nil
  | cons x tl ih =>
    intro himp hch
    cases tl with
    | nil => exact List.chain'_singleton x
    | cons y tl2 =>
      rw [List.chain'_cons] at hch ⊢
      refine ⟨himp x (List.mem_cons_self x _) y
        (List.mem_cons_of_mem x (List.mem_cons_self y _)) hch.1, ?_⟩
      exact ih (fun a ha b hb =>
        himp a (List.mem_cons_of_mem x ha) b (List.mem_cons_of_mem x hb)) hch.2

theorem mapped_props (l : List Char) :
    (∀ s ∈ (segs l).map replSeg, s ≠ []) ∧
    (∀ s ∈ (segs l).map replSeg, ∀ c ∈ s, isWordChar c = runKind s) ∧
    List.Chain' (fun a b => runKind a ≠ runKind b) ((segs l).map replSeg) := by
  have hp := segs_props l
  refine ⟨?_, ?_, ?_⟩
  · intro s hs
    obtain ⟨s0, hs0, rfl⟩ := List.mem_map.mp hs
    exact (replSeg_props s0 (hp s0 hs0).1 (hp s0 hs0).2).1
  · intro s hs
    obtain ⟨s0, hs0, rfl⟩ := List.mem_map.mp hs
    exact (replSeg_props s0 (hp s0 hs0).1 (hp s0 hs0).2).2.1
  · rw [List.chain'_map]
    refine chain_imp_mem (segs l) ?_ (segs_chain l)
    intro a ha b hb hab
    rw [(replSeg_props a (hp a ha).1 (hp a ha).2).2.2,
      (replSeg_props b (hp b hb).1 (hp b hb).2).2.2]
    exact hab

theorem normalizeWords_data (t : String) :
    (normalizeWords t).data = ((segs t.data).map replSeg).flatten := rfl

theorem segs_normalizeWords (t : String) :
    segs (normalizeWords t).data = (segs t.data).map replSeg := by
  rw [normalizeWords_data]
  exact segs_join _ (mapped_props t.data).1 (mapped_props t.data).2.1 (mapped_props t.data).2.2

theorem mapRS_idem : ∀ L : List (List Char), (L.map replSeg).map replSeg = L.map replSeg := by
  intro L
  induction L with
  | nil => rfl
  | cons x tl ih => rw [List.map_cons, List.map_cons, replSeg_idem, ih]

theorem normalizeWords_idem (t : String) :
    normalizeWords (normalizeWords t) = normalizeWords t := by
  have hd : (normalizeWords (normalizeWords t)).data = (normalizeWords t).data := by
    rw [normalizeWords_data, segs_normalizeWords, mapRS_idem, normalizeWords_data]
  exact congrArg String.mk hd

theorem getLastQ_cons_some {α : Type} (l : List α) (z : α) :
    ∃ c, (z :: l).getLast? = some c := by
  induction l generalizing z with
  | nil => exact ⟨z, by simp⟩
  | cons y t ih =>
    obtain ⟨c, hc⟩ := ih y
    exact ⟨c, by rw [List.getLast?_cons_cons]; exact hc⟩

theorem mem_of_getLastQ {α : Type} : ∀ (L : List α) (a : α),
    L.getLast? = some a → a ∈ L := by
  intro L
  induction L with
  | nil => intro a h; simp at h
  | cons x tl ih =>
    intro a h
    cases tl with
    | nil =>
      simp at h
      subst h
      exact List.mem_cons_self x []
    | cons y tl2 =>
      rw [List.getLast?_cons_cons] at h
      exact List.mem_cons_of_mem x (ih a h)

theorem flatten_getLast : ∀ (runs : List (List Char)) (a : List Char),
    runs.getLast? = some a → (∀ s ∈ runs, s ≠ []) →
    runs.flatten.getLast? = a.getLast? := by
  intro runs
  induction runs with
  | nil => intro a h _; simp at h
  | cons x tl ih =>
    intro a h hne
    cases htl : tl with
    | nil =>
      subst htl
      simp at h
      subst h
      simp
    | cons y tl2 =>
      subst htl
      rw [List.getLast?_cons_cons] at h
      have hb := ih a h (fun s hs => hne s (List.mem_cons_of_mem x hs))
      have hane : a ≠ [] := hne a (List.mem_cons_of_mem x (mem_of_getLastQ _ a h))
      obtain ⟨c, hc⟩ : ∃ c, a.getLast? = some c := by
        cases ha2 : a with
        | nil => exact absurd ha2 hane
        | cons z zs => exact getLastQ_cons_some zs z
      rw [List.flatten_cons, hc]
      exact getLastQ_append x ((y :: tl2).flatten) c (by rw [hb, hc])

theorem getLastQ_map (f : List Char → List Char) :
    ∀ L : List (List Char), (L.map f).getLast? = L.getLast?.map f := by
  intro L
  induction L with
  | nil => rfl
  | cons x tl ih =>
    cases tl with
    | nil => simp
    | cons y tl2 =>
      rw [List.map_cons, List.map_cons, List.getLast?_cons_cons, ← List.map_cons,
        List.getLast?_cons_cons, ih]

theorem normalizeWords_ne_nil (t : List Char) (h : t ≠ []) :
    ((segs t).map replSeg).flatten ≠ [] := by
  cases t with
  | nil => exact absurd rfl h
  | cons x xs =>
    rw [segs_cons_eq, List.map_cons, List.flatten_cons]
    have hne : replSeg (x :: xs.takeWhile (fun d => isWordChar d == isWordChar x)) ≠ [] := by
      have hp := segs_props (x :: xs)
      have hm : (x :: xs.takeWhile (fun d => isWordChar d == isWordChar x)) ∈ segs (x :: xs) := by
        rw [segs_cons_eq]
        exact List.mem_cons_self _ _
      exact (replSeg_props _ (hp _ hm).1 (hp _ hm).2).1
    intro heq
    exact hne (List.append_eq_nil.mp heq).1

theorem normalizeWords_head_not_ws (t : List Char)
    (ht : ∀ c, t.head? = some c → isWsChar c = false) :
    ∀ c, (((segs t).map replSeg).flatten).head? = some c → isWsChar c = false := by
  intro c hc
  cases t with
  | nil => simp [segs] at hc
  | cons x xs =>
    rw [segs_cons_eq, List.map_cons, List.flatten_cons] at hc
    cases hrep : typoLookup
        (⟨lowerL (x :: xs.takeWhile (fun d => isWordChar d == isWordChar x))⟩ : String) with
    | none =>
      have e : replSeg (x :: xs.takeWhile (fun d => isWordChar d == isWordChar x)) =
          x :: xs.takeWhile (fun d => isWordChar d == isWordChar x) := by
        unfold replSeg
        rw [hrep]
      rw [e, List.cons_append, List.head?_cons] at hc
      injection hc with hxc
      rw [← hxc]
      exact ht x rfl
    | some k =>
      have e : replSeg (x :: xs.takeWhile (fun d => isWordChar d == isWordChar x)) = k.data := by
        unfold replSeg
        rw [hrep]
      rw [e] at hc
      obtain ⟨hk1, hk2, hk3⟩ := typoLookup_chars _ _ hrep
      cases hk : k.data with
      | nil => exact absurd hk hk3
      | cons y ys =>
        rw [hk, List.cons_append, List.head?_cons] at hc
        injection hc with hyc
        rw [← hyc]
        exact wordChar_not_ws y (lower_isWord y (hk2 y (by rw [hk]; exact List.mem_cons_self y ys)))

theorem normalizeWords_last_not_ws (t : List Char)
    (ht : ∀ c, t.getLast? = some c → isWsChar c = false) :
    ∀ c, (((segs t).map replSeg).flatten).getLast? = some c → isWsChar c = false := by
  intro c hc
  cases hseg : segs t with
  | nil =>
    rw [hseg] at hc
    simp at hc
  | cons s0 tl =>
    have hp := segs_props t
    obtain ⟨s1, hs1⟩ : ∃ s1, (segs t).getLast? = some s1 := by
      rw [hseg]
      exact getLastQ_cons_some tl s0
    have hmap : ((segs t).map replSeg).getLast? = some (replSeg s1) := by
      rw [getLastQ_map replSeg (segs t), hs1]
      rfl
    have hms1 : s1 ∈ segs t := mem_of_getLastQ _ s1 hs1
    have hflat : ((segs t).map replSeg).flatten.getLast? = (replSeg s1).getLast? :=
      flatten_getLast _ _ hmap (mapped_props t).1
    rw [hflat] at hc
    have htlast : t.getLast? = s1.getLast? := by
      conv_lhs => rw [← segs_flatten t]
      exact flatten_getLast _ s1 hs1 (fun s hs => (hp s hs).1)
    cases hrep : typoLookup (⟨lowerL s1⟩ : String) with
    | none =>
      have e : replSeg s1 = s1 := by
        unfold replSeg
        rw [hrep]
      rw [e] at hc
      exact ht c (by rw [htlast]; exact hc)
    | some k =>
      have e : replSeg s1 = k.data := by
        unfold replSeg
        rw [hrep]
      rw [e] at hc
      have hk2 := (typoLookup_chars _ _ hrep).2.1
      exact wordChar_not_ws c (lower_isWord c (hk2 c (mem_of_getLastQ k.data c hc)))

theorem normalizeWords_any_ws (t : List Char) (h : t.any isWsChar = true) :
    (((segs t).map replSeg).flatten).any isWsChar = true := by
  rw [List.any_eq_true] at h ⊢
  obtain ⟨c, hct, hcw⟩ := h
  have hcm : c ∈ (segs t).flatten := by
    rw [segs_flatten]
    exact hct
  obtain ⟨s, hs, hcs⟩ := List.mem_flatten.mp hcm
  refine ⟨c, ?_, hcw⟩
  apply List.mem_flatten.mpr
  refine ⟨replSeg s, List.mem_map_of_mem replSeg hs, ?_⟩
  rw [replSeg_of_nonword s c hcs (wsChar_not_word c hcw)]
  exact hcs

theorem normalizeExact_fixpoint (l : List Char) (hne : l ≠ []) (htr : jsTrimL l = l)
    (hwsl : l.any isWsChar = false)
    (hty : typoLookup (⟨lowerL l⟩ : String) = none)
    (hcon : ¬ CANONICAL.contains (⟨lowerL l⟩ : String) = true) :
    normalizeMoveInput (⟨l⟩ : String) = (⟨l⟩ : String) := by
  have h0' : jsTrimL l ≠ [] := by rw [htr]; exact hne
  have hws' : (jsTrimL l).any isWsChar = false := by rw [htr]; exact hwsl
  rw [nmi_exact (⟨l⟩ : String) h0' hws']
  rw [normalizeExact_trimmed (⟨jsTrimL ((⟨l⟩ : String)).data⟩ : String) l htr hne htr]
  rw [hty]
  dsimp only
  rw [if_neg hcon]
  exact congrArg String.mk htr

theorem nmi_idem (s : String) :
    normalizeMoveInput (normalizeMoveInput s) = normalizeMoveInput s := by
  by_cases h0 : jsTrimL s.data = []
  · rw [nmi_empty s h0, h0]
    decide
  · by_cases hws : (jsTrimL s.data).any isWsChar = true
    · rw [nmi_words s h0 hws]
      have hWhead : ∀ c, (normalizeWords (⟨jsTrimL s.data⟩ : String)).data.head? = some c →
          isWsChar c = false :=
        fun c hc => normalizeWords_head_not_ws (jsTrimL s.data)
          (fun d hd => jsTrimL_head_not_ws s.data d hd) c hc
      have hWlast : ∀ c, (normalizeWords (⟨jsTrimL s.data⟩ : String)).data.getLast? = some c →
          isWsChar c = false :=
        fun c hc => normalizeWords_last_not_ws (jsTrimL s.data)
          (fun d hd => jsTrimL_last_not_ws s.data d hd) c hc
      have hWtrim : jsTrimL (normalizeWords (⟨jsTrimL s.data⟩ : String)).data
          = (normalizeWords (⟨jsTrimL s.data⟩ : String)).data :=
        jsTrimL_id _ hWhead hWlast
      have hWne : (normalizeWords (⟨jsTrimL s.data⟩ : String)).data ≠ [] :=
        normalizeWords_ne_nil (jsTrimL s.data) h0
      have hWws : (normalizeWords (⟨jsTrimL s.data⟩ : String)).data.any isWsChar = true :=
        normalizeWords_any_ws (jsTrimL s.data) hws
      rw [nmi_words (normalizeWords (⟨jsTrimL s.data⟩ : String))
        (by rw [hWtrim]; exact hWne) (by rw [hWtrim]; exact hWws), hWtrim]
      show normalizeWords (normalizeWords (⟨jsTrimL s.data⟩ : String))
        = normalizeWords (⟨jsTrimL s.data⟩ : String)
      exact normalizeWords_idem _
    · rw [Bool.not_eq_true] at hws
      rw [nmi_exact s h0 hws]
      rw [normalizeExact_trimmed (⟨jsTrimL s.data⟩ : String) (jsTrimL s.data) rfl h0
        (jsTrimL_id_of_trimmed s.data)]
      cases hty : typoLookup (⟨lowerL (jsTrimL s.data)⟩ : String) with
      | some k =>
        show normalizeMoveInput k = k
        exact canon_fixed k (typoLookup_canon _ _ hty)
      | none =>
        dsimp only
        by_cases hcon : CANONICAL.contains (⟨lowerL (jsTrimL s.data)⟩ : String) = true
        · rw [if_pos hcon]
          exact canon_fixed _ (canonical_contains_mem _ hcon)
        · rw [if_neg hcon]
          exact normalizeExact_fixpoint (jsTrimL s.data) h0 (jsTrimL_id_of_trimmed s.data)
            hws hty hcon

theorem nmi_single (s c : String) (h0 : jsTrimL s.data ≠ [])
    (hws : (jsTrimL s.data).any isWsChar = false)
    (hc : canonicalTarget (⟨lowerL (jsTrimL s.data)⟩ : String) = some c) :
    normalizeMoveInput s = c ∧ c ∈ CANONICAL := by
  rw [nmi_exact s h0 hws,
    normalizeExact_trimmed (⟨jsTrimL s.data⟩ : String) (jsTrimL s.data) rfl h0
      (jsTrimL_id_of_trimmed s.data)]
  unfold canonicalTarget at hc
  cases hty : typoLookup (⟨lowerL (jsTrimL s.data)⟩ : String) with
  | some k =>
    rw [hty] at hc
    have hkc : k = c := Option.some.inj hc
    subst hkc
    exact ⟨rfl, typoLookup_canon _ _ hty⟩
  | none =>
    rw [hty] at hc
    dsimp only at hc
    dsimp only
    by_cases hcon : CANONICAL.contains (⟨lowerL (jsTrimL s.data)⟩ : String) = true
    · rw [if_pos hcon] at hc ⊢
      have hkc := Option.some.inj hc
      exact ⟨hkc, hkc ▸ canonical_contains_mem _ hcon⟩
    · rw [if_neg hcon] at hc
      cases hc

theorem nmi_wsonly (s : String) (h : ∀ ch ∈ s.data, isWsChar ch = true) :
    normalizeMoveInput s = jsTrim s := by
  rw [nmi_empty s (jsTrimL_all_ws s.data h)]
  rfl

theorem nmi_multi (s : String) (h0 : jsTrimL s.data ≠ [])
    (hws : (jsTrimL s.data).any isWsChar = true) :
    (normalizeMoveInput s).data = ((segs (jsTrimL s.data)).map replSeg).flatten ∧
    (segs (jsTrimL s.data)).flatten = jsTrimL s.data ∧
    (∀ p ∈ segs (jsTrimL s.data), typoLookup (⟨lowerL p⟩ : String) = none → replSeg p = p) ∧
    (∀ p ∈ segs (jsTrimL s.data), ∀ c : String,
      typoLookup (⟨lowerL p⟩ : String) = some c → replSeg p = c.data ∧ c ∈ CANONICAL) := by
  refine ⟨?_, segs_flatten _, ?_, ?_⟩
  · rw [nmi_words s h0 hws]
    rfl
  · intro p _ hp
    unfold replSeg
    rw [hp]
  · intro p _ c hp
    refine ⟨?_, typoLookup_canon _ _ hp⟩
    unfold replSeg
    rw [hp]

theorem segs_single_word (l : List Char) (hne : l ≠ [])
    (hall : ∀ c ∈ l, isWordChar c = true) : segs l = [l] := by
  have h := segs_append_run l [] true hne hall (fun d hd => by simp at hd)
  rw [List.append_nil] at h
  rw [h]
  simp [segs]

theorem normalizeWords_trim_id (s : String) :
    jsTrimL (normalizeWords (⟨jsTrimL s.data⟩ : String)).data
      = (normalizeWords (⟨jsTrimL s.data⟩ : String)).data :=
  jsTrimL_id _
    (fun c hc => normalizeWords_head_not_ws (jsTrimL s.data)
      (fun d hd => jsTrimL_head_not_ws s.data d hd) c hc)
    (fun c hc => normalizeWords_last_not_ws (jsTrimL s.data)
      (fun d hd => jsTrimL_last_not_ws s.data d hd) c hc)

theorem canonical_not_proto : ∀ x ∈ CANONICAL, x ∉ PROTO_KEYS := by decide

theorem canon_lower_not_proto :
    ∀ x ∈ CANONICAL, (⟨lowerL x.data⟩ : String) ∉ PROTO_KEYS := by decide

theorem canonV_fixed : ∀ x ∈ CANONICAL, normalizeMoveInputV x = JsVal.str x := by decide

theorem typoLookup_some_not_proto (k c : String) (h : typoLookup k = some c) :
    k ∉ PROTO_KEYS := by
  unfold typoLookup at h
  split_ifs at h with h1 h2 h3 h4
  · rcases h1 with h1 | h1 | h1 | h1 | h1 <;> subst h1 <;> decide
  · rcases h2 with h2 | h2 | h2 <;> subst h2 <;> decide
  · rcases h3 with h3 | h3 | h3 | h3 <;> subst h3 <;> decide
  · rcases h4 with h4 | h4 | h4 <;> subst h4 <;> decide

theorem canonicalTarget_key_not_proto (k c : String) (h : canonicalTarget k = some c) :
    k ∉ PROTO_KEYS := by
  unfold canonicalTarget at h
  cases hty : typoLookup k with
  | some c2 => exact typoLookup_some_not_proto k c2 hty
  | none =>
    rw [hty] at h
    dsimp only at h
    by_cases hcon : CANONICAL.contains k = true
    · exact canonical_not_proto k (canonical_contains_mem k hcon)
    · rw [if_neg hcon] at h
      cases h

theorem tmGet_of_not_proto (key : String) (h : key ∉ PROTO_KEYS) :
    tmGet key = (typoLookup key).map JsVal.str := by
  have h12 : ¬key = "constructor" ∧ ¬key = "hasOwnProperty" ∧ ¬key = "isPrototypeOf" ∧
      ¬key = "propertyIsEnumerable" ∧ ¬key = "toLocaleString" ∧ ¬key = "toString" ∧
      ¬key = "valueOf" ∧ ¬key = "__defineGetter__" ∧ ¬key = "__defineSetter__" ∧
      ¬key = "__lookupGetter__" ∧ ¬key = "__lookupSetter__" ∧ ¬key = "__proto__" := by
    simp only [PROTO_KEYS, List.mem_cons, List.mem_singleton, not_or] at h
    simpa using h
  obtain ⟨h1, h2, h3, h4, h5, h6, h7, h8, h9, h10, h11, h12'⟩ := h12
  unfold tmGet
  cases hty : typoLookup key with
  | some c => rfl
  | none =>
    dsimp only
    rw [if_neg h1, if_neg h2, if_neg h3, if_neg h4, if_neg h5, if_neg h6, if_neg h7,
      if_neg h8, if_neg h9, if_neg h10, if_neg h11, if_neg h12']
    rfl

theorem mapRS_congr {f g : List Char → List Char} :
    ∀ L : List (List Char), (∀ a ∈ L, f a = g a) → L.map f = L.map g := by
  intro L
  induction L with
  | nil => intro _; rfl
  | cons x tl ih =>
    intro h
    rw [List.map_cons, List.map_cons, h x (List.mem_cons_self x tl),
      ih (fun a ha => h a (List.mem_cons_of_mem x ha))]

theorem replSegV_of_not_proto (w : List Char)
    (h : (⟨lowerL w⟩ : String) ∉ PROTO_KEYS) :
    replSegV w = JsVal.str (⟨replSeg w⟩ : String) := by
  unfold replSegV replSeg
  rw [tmGet_of_not_proto _ h]
  cases hty : typoLookup (⟨lowerL w⟩ : String) with
  | some c => rfl
  | none => rfl

theorem normalizeWordsV_eq (t : String)
    (h : ∀ p ∈ segs t.data, (⟨lowerL p⟩ : String) ∉ PROTO_KEYS) :
    normalizeWordsV t = normalizeWords t := by
  unfold normalizeWordsV normalizeWords
  exact congrArg String.mk (congrArg List.flatten
    (mapRS_congr (segs t.data) (fun p hp => by
      show (jsValJoinStr (replSegV p)).data = replSeg p
      rw [replSegV_of_not_proto p (h p hp)]
      rfl)))

theorem normalizeExactV_trimmed (x : String) (l : List Char) (hx : x.data = l)
    (hne : l ≠ []) (htr : jsTrimL l = l) :
    normalizeExactV x =
      match tmGet (⟨lowerL l⟩ : String) with
      | some v => v
      | none =>
        if CANONICAL.contains (⟨lowerL l⟩ : String) then JsVal.str (⟨lowerL l⟩ : String)
        else JsVal.str x := by
  unfold normalizeExactV
  rw [hx, htr, if_neg (by rw [lowerL_isEmpty_false l hne]; exact Bool.false_ne_true)]

theorem normalizeExactV_eq (x : String)
    (h : (⟨lowerL (jsTrimL x.data)⟩ : String) ∉ PROTO_KEYS) :
    normalizeExactV x = JsVal.str (normalizeExact x) := by
  unfold normalizeExactV normalizeExact
  by_cases he : (lowerL (jsTrimL x.data)).isEmpty = true
  · rw [if_pos he, if_pos he]
  · rw [if_neg he, if_neg he, tmGet_of_not_proto _ h]
    cases hty : typoLookup (⟨lowerL (jsTrimL x.data)⟩ : String) with
    | some c => rfl
    | none =>
      by_cases hc : CANONICAL.contains (⟨lowerL (jsTrimL x.data)⟩ : String) = true
      · rw [if_pos hc, if_pos hc]
        rfl
      · rw [if_neg hc, if_neg hc]
        rfl

theorem nmiV_empty (r : String) (h : jsTrimL r.data = []) :
    normalizeMoveInputV r = JsVal.str (⟨jsTrimL r.data⟩ : String) := by
  unfold normalizeMoveInputV
  rw [if_pos (by rw [h]; rfl)]

theorem nmiV_words (r : String) (h0 : jsTrimL r.data ≠ [])
    (hws : (jsTrimL r.data).any isWsChar = true) :
    normalizeMoveInputV r = JsVal.str (normalizeWordsV (⟨jsTrimL r.data⟩ : String)) := by
  unfold normalizeMoveInputV
  rw [if_neg (by rw [isEmpty_false_of_ne h0]; exact Bool.false_ne_true), if_pos hws]

theorem nmiV_exact (r : String) (h0 : jsTrimL r.data ≠ [])
    (hws : (jsTrimL r.data).any isWsChar = false) :
    normalizeMoveInputV r = normalizeExactV (⟨jsTrimL r.data⟩ : String) := by
  unfold normalizeMoveInputV
  rw [if_neg (by rw [isEmpty_false_of_ne h0]; exact Bool.false_ne_true),
    if_neg (by rw [hws]; exact Bool.false_ne_true)]

theorem nmiV_empty_eq (s : String) (h0 : jsTrimL s.data = []) :
    normalizeMoveInputV s = JsVal.str (normalizeMoveInput s) := by
  rw [nmiV_empty s h0, nmi_empty s h0]

theorem nmiV_words_eq (s : String) (h0 : jsTrimL s.data ≠ [])
    (hws : (jsTrimL s.data).any isWsChar = true)
    (hsegs : ∀ p ∈ segs (jsTrimL s.data), (⟨lowerL p⟩ : String) ∉ PROTO_KEYS) :
    normalizeMoveInputV s = JsVal.str (normalizeMoveInput s) := by
  rw [nmiV_words s h0 hws, nmi_words s h0 hws]
  exact congrArg JsVal.str (normalizeWordsV_eq (⟨jsTrimL s.data⟩ : String) hsegs)

theorem nmiV_exact_eq (s : String) (h0 : jsTrimL s.data ≠ [])
    (hws : (jsTrimL s.data).any isWsChar = false)
    (hkey : (⟨lowerL (jsTrimL s.data)⟩ : String) ∉ PROTO_KEYS) :
    normalizeMoveInputV s = JsVal.str (normalizeMoveInput s) := by
  rw [nmiV_exact s h0 hws, nmi_exact s h0 hws]
  refine normalizeExactV_eq (⟨jsTrimL s.data⟩ : String) ?_
  rw [show jsTrimL ((⟨jsTrimL s.data⟩ : String)).data = jsTrimL s.data from
    jsTrimL_id_of_trimmed s.data]
  exact hkey

theorem normalizeMoveInputV_eq (s : String)
    (hkey : (⟨lowerL (jsTrimL s.data)⟩ : String) ∉ PROTO_KEYS)
    (hsegs : ∀ p ∈ segs (jsTrimL s.data), (⟨lowerL p⟩ : String) ∉ PROTO_KEYS) :
    normalizeMoveInputV s = JsVal.str (normalizeMoveInput s) := by
  by_cases h0 : jsTrimL s.data = []
  · exact nmiV_empty_eq s h0
  · by_cases hws : (jsTrimL s.data).any isWsChar = true
    · exact nmiV_words_eq s h0 hws hsegs
    · rw [Bool.not_eq_true] at hws
      exact nmiV_exact_eq s h0 hws hkey

theorem nmiV_fixpoint (l : List Char) (hne : l ≠ []) (htr : jsTrimL l = l)
    (hwsl : l.any isWsChar = false)
    (hget : tmGet (⟨lowerL l⟩ : String) = none)
    (hcon : ¬ CANONICAL.contains (⟨lowerL l⟩ : String) = true) :
    normalizeMoveInputV (⟨l⟩ : String) = JsVal.str (⟨l⟩ : String) := by
  have h0' : jsTrimL l ≠ [] := by rw [htr]; exact hne
  have hws' : (jsTrimL l).any isWsChar = false := by rw [htr]; exact hwsl
  rw [nmiV_exact (⟨l⟩ : String) h0' hws']
  rw [normalizeExactV_trimmed (⟨jsTrimL ((⟨l⟩ : String)).data⟩ : String) l htr hne htr]
  rw [hget]
  dsimp only
  rw [if_neg hcon]
  exact congrArg JsVal.str (congrArg String.mk htr)

theorem normalizeWords_segs_not_proto (s : String)
    (hsegs : ∀ p ∈ segs (jsTrimL s.data), (⟨lowerL p⟩ : String) ∉ PROTO_KEYS) :
    ∀ p ∈ segs (jsTrimL (normalizeWords (⟨jsTrimL s.data⟩ : String)).data),
      (⟨lowerL p⟩ : String) ∉ PROTO_KEYS := by
  rw [normalizeWords_trim_id s]
  rw [show segs (normalizeWords (⟨jsTrimL s.data⟩ : String)).data
      = (segs ((⟨jsTrimL s.data⟩ : String)).data).map replSeg from segs_normalizeWords _]
  intro p hp
  obtain ⟨q, hq, rfl⟩ := List.mem_map.mp hp
  cases hqty : typoLookup (⟨lowerL q⟩ : String) with
  | none =>
    have e : replSeg q = q := by
      unfold replSeg
      rw [hqty]
    rw [e]
    exact hsegs q hq
  | some c =>
    have e : replSeg q = c.data := by
      unfold replSeg
      rw [hqty]
    rw [e]
    exact canon_lower_not_proto c (typoLookup_canon _ _ hqty)

theorem nmiV_fix (s : String)
    (hkey : (⟨lowerL (jsTrimL s.data)⟩ : String) ∉ PROTO_KEYS)
    (hsegs : ∀ p ∈ segs (jsTrimL s.data), (⟨lowerL p⟩ : String) ∉ PROTO_KEYS) :
    normalizeMoveInputV (normalizeMoveInput s) = JsVal.str (normalizeMoveInput s) := by
  by_cases h0 : jsTrimL s.data = []
  · rw [nmi_empty s h0, h0]
    decide
  · by_cases hws : (jsTrimL s.data).any isWsChar = true
    · rw [nmi_words s h0 hws]
      have hid := nmi_idem s
      rw [nmi_words s h0 hws] at hid
      have htr := normalizeWords_trim_id s
      have hne : (normalizeWords (⟨jsTrimL s.data⟩ : String)).data ≠ [] :=
        normalizeWords_ne_nil (jsTrimL s.data) h0
      have hwsW : (normalizeWords (⟨jsTrimL s.data⟩ : String)).data.any isWsChar = true :=
        normalizeWords_any_ws (jsTrimL s.data) hws
      rw [nmiV_words_eq (normalizeWords (⟨jsTrimL s.data⟩ : String))
        (by rw [htr]; exact hne) (by rw [htr]; exact hwsW)
        (normalizeWords_segs_not_proto s hsegs), hid]
    · rw [Bool.not_eq_true] at hws
      rw [nmi_exact s h0 hws,
        normalizeExact_trimmed (⟨jsTrimL s.data⟩ : String) (jsTrimL s.data) rfl h0
          (jsTrimL_id_of_trimmed s.data)]
      cases hty : typoLookup (⟨lowerL (jsTrimL s.data)⟩ : String) with
      | some k =>
        show normalizeMoveInputV k = JsVal.str k
        exact canonV_fixed k (typoLookup_canon _ _ hty)
      | none =>
        dsimp only
        by_cases hcon : CANONICAL.contains (⟨lowerL (jsTrimL s.data)⟩ : String) = true
        · rw [if_pos hcon]
          exact canonV_fixed _ (canonical_contains_mem _ hcon)
        · rw [if_neg hcon]
          have hget : tmGet (⟨lowerL (jsTrimL s.data)⟩ : String) = none := by
            rw [tmGet_of_not_proto _ hkey, hty]
            rfl
          exact nmiV_fixpoint (jsTrimL s.data) h0 (jsTrimL_id_of_trimmed s.data) hws hget hcon

theorem nmiV_bridge_idem (s : String)
    (hkey : (⟨lowerL (jsTrimL s.data)⟩ : String) ∉ PROTO_KEYS)
    (hsegs : ∀ p ∈ segs (jsTrimL s.data), (⟨lowerL p⟩ : String) ∉ PROTO_KEYS) :
    normalizeMoveInputV s = JsVal.str (normalizeMoveInput s) ∧
    normalizeMoveInputJs (normalizeMoveInputV s) = Except.ok (normalizeMoveInputV s) := by
  have hb := normalizeMoveInputV_eq s hkey hsegs
  refine ⟨hb, ?_⟩
  rw [hb]
  show Except.ok (normalizeMoveInputV (normalizeMoveInput s))
      = Except.ok (JsVal.str (normalizeMoveInput s))
  rw [nmiV_fix s hkey hsegs]

/-- Claim C10 (counterexample): the lookup `TYPO_MAP[key]` walks the
prototype chain, so the single-word input `"constructor"` hits the inherited
truthy `Object.prototype.constructor` and `normalizeMoveInput` returns that
function instead of a string; applying `normalizeMoveInput` to this result
throws a `TypeError` (a function has no `trim` method), refuting idempotence
on all strings; and `normalizeWords` stringifies the inherited value into
the output, rewriting the non-typo word `constructor` of a phrase. -/
theorem claim_C10_counterexample :
    normalizeMoveInputV "constructor" = JsVal.protoFn "Object" ∧
    normalizeMoveInputJs (normalizeMoveInputV "constructor") = Except.error "TypeError" ∧
    normalizeWordsV "pick constructor" ≠ "pick constructor" := by
  refine ⟨rfl, rfl, ?_⟩
  have s5 : segs ("constructor".data) = ["constructor".data] :=
    segs_single_word ("constructor".data) (by decide) (by decide)
  have s4 : segs (' ' :: "constructor".data) = [' '] :: segs ("constructor".data) :=
    segs_append_run [' '] ("constructor".data) false (by decide) (by decide)
      (by intro d hd; injection hd with h2; rw [← h2]; decide)
  have s1 : segs ("pick".data ++ (' ' :: "constructor".data))
      = "pick".data :: segs (' ' :: "constructor".data) :=
    segs_append_run "pick".data (' ' :: "constructor".data) true (by decide) (by decide)
      (by intro d hd; injection hd with h2; rw [← h2]; decide)
  have hsegs : segs ("pick constructor".data)
      = ["pick".data, [' '], "constructor".data] := by
    have e1 : segs ("pick constructor".data)
        = "pick".data :: segs (' ' :: "constructor".data) := s1
    rw [e1, s4, s5]
  have hval : normalizeWordsV "pick constructor"
      = ⟨((["pick".data, [' '], "constructor".data]).map
          (fun w => (jsValJoinStr (replSegV w)).data)).flatten⟩ := by
    unfold normalizeWordsV
    rw [hsegs]
  rw [hval]
  decide

/-- Claim C10 (amended): on the prototype-free domain — inputs none of whose
relevant lookup keys (the trimmed lower-cased input, the lower-cased
word-boundary segments of the trim) name an `Object.prototype` property —
`normalizeMoveInput` agrees with its pure string restriction and a second
application returns the same value (idempotence); a single-word input that
is, case-insensitively, a known typo or a canonical move normalizes to the
canonical lowercase move, with no prototype side condition because own keys
shadow the prototype and the canonical moves are not property names; a
whitespace-only input is returned trimmed; and a multi-word input with
prototype-free word keys is rewritten segment-by-segment along the
word-boundary segmentation of its trim, where exactly the whole-word known
typos become canonical moves and every other segment is left unchanged. -/
theorem claim_C10_amended :
    (∀ s : String,
      (⟨lowerL (jsTrimL s.data)⟩ : String) ∉ PROTO_KEYS →
      (∀ p ∈ segs (jsTrimL s.data), (⟨lowerL p⟩ : String) ∉ PROTO_KEYS) →
      normalizeMoveInputV s = JsVal.str (normalizeMoveInput s) ∧
      normalizeMoveInputJs (normalizeMoveInputV s) = Except.ok (normalizeMoveInputV s)) ∧
    (∀ s : String, normalizeMoveInput (normalizeMoveInput s) = normalizeMoveInput s) ∧
    (∀ s c : String, jsTrimL s.data ≠ [] → (jsTrimL s.data).any isWsChar = false →
      canonicalTarget (⟨lowerL (jsTrimL s.data)⟩ : String) = some c →
      normalizeMoveInputV s = JsVal.str c ∧ c ∈ CANONICAL) ∧
    (∀ s : String, (∀ ch ∈ s.data, isWsChar ch = true) →
      normalizeMoveInputV s = JsVal.str (jsTrim s)) ∧
    (∀ s : String, jsTrimL s.data ≠ [] → (jsTrimL s.data).any isWsChar = true →
      (∀ p ∈ segs (jsTrimL s.data), (⟨lowerL p⟩ : String) ∉ PROTO_KEYS) →
      normalizeMoveInputV s = JsVal.str (normalizeMoveInput s) ∧
      (normalizeMoveInput s).data = ((segs (jsTrimL s.data)).map replSeg).flatten ∧
      (segs (jsTrimL s.data)).flatten = jsTrimL s.data ∧
      (∀ p ∈ segs (jsTrimL s.data), typoLookup (⟨lowerL p⟩ : String) = none → replSeg p = p) ∧
      (∀ p ∈ segs (jsTrimL s.data), ∀ c : String,
        typoLookup (⟨lowerL p⟩ : String) = some c → replSeg p = c.data ∧ c ∈ CANONICAL)) := by
  refine ⟨nmiV_bridge_idem, nmi_idem, ?_, ?_, ?_⟩
  · intro s c h0 hws hct
    have hkey := canonicalTarget_key_not_proto _ _ hct
    have hb := nmiV_exact_eq s h0 hws hkey
    have hres := nmi_single s c h0 hws hct
    exact ⟨by rw [hb, hres.1], hres.2⟩
  · intro s h
    rw [nmiV_empty s (jsTrimL_all_ws s.data h)]
    rfl
  · intro s h0 hws hsegs
    have hm := nmi_multi s h0 hws
    exact ⟨nmiV_words_eq s h0 hws hsegs, hm.1, hm.2.1, hm.2.2.1, hm.2.2.2⟩

/-- Witness for the amended C10 at concrete prototype-free inputs: agreement
with the string restriction and idempotence at `"scisor"`; pure idempotence
at a typo-bearing phrase; `"  ROCK "` normalizes to the canonical `"rock"`;
a whitespace-only input is returned trimmed; and a multi-word phrase agrees
with the string restriction. -/
theorem claim_C10_amended_witness :
    (normalizeMoveInputV "scisor" = JsVal.str (normalizeMoveInput "scisor") ∧
      normalizeMoveInputJs (normalizeMoveInputV "scisor")
        = Except.ok (normalizeMoveInputV "scisor")) ∧
    normalizeMoveInput (normalizeMoveInput "I choose scisor")
      = normalizeMoveInput "I choose scisor" ∧
    (normalizeMoveInputV "  ROCK " = JsVal.str "rock" ∧ "rock" ∈ CANONICAL) ∧
    normalizeMoveInputV "   " = JsVal.str (jsTrim "   ") ∧
    normalizeMoveInputV "i pick papper" = JsVal.str (normalizeMoveInput "i pick papper") := by
  have hsc : segs (jsTrimL ("scisor".data)) = ["scisor".data] := by
    rw [(by decide : jsTrimL ("scisor".data) = "scisor".data)]
    exact segs_single_word ("scisor".data) (by decide) (by decide)
  have hip : segs (jsTrimL ("i pick papper".data))
      = ["i".data, [' '], "pick".data, [' '], "papper".data] := by
    rw [(by decide : jsTrimL ("i pick papper".data) = "i pick papper".data)]
    have t5 : segs ("papper".data) = ["papper".data] :=
      segs_single_word ("papper".data) (by decide) (by decide)
    have t4 : segs (' ' :: "papper".data) = [' '] :: segs ("papper".data) :=
      segs_append_run [' '] ("papper".data) false (by decide) (by decide)
        (by intro d hd; injection hd with h2; rw [← h2]; decide)
    have t3 : segs ("pick".data ++ (' ' :: "papper".data))
        = "pick".data :: segs (' ' :: "papper".data) :=
      segs_append_run "pick".data (' ' :: "papper".data) true (by decide) (by decide)
        (by intro d hd; injection hd with h2; rw [← h2]; decide)
    have t2 : segs (' ' :: ("pick".data ++ (' ' :: "papper".data)))
        = [' '] :: segs ("pick".data ++ (' ' :: "papper".data)) :=
      segs_append_run [' '] ("pick".data ++ (' ' :: "papper".data)) false (by decide)
        (by decide)
        (by intro d hd; injection hd with h2; rw [← h2]; decide)
    have t1 : segs ("i pick papper".data)
        = "i".data :: segs (' ' :: ("pick".data ++ (' ' :: "papper".data))) :=
      segs_append_run "i".data (' ' :: ("pick".data ++ (' ' :: "papper".data))) true
        (by decide) (by decide)
        (by intro d hd; injection hd with h2; rw [← h2]; decide)
    rw [t1, t2, t3, t4, t5]
  refine ⟨claim_C10_amended.1 "scisor" (by decide) ?_,
    claim_C10_amended.2.1 "I choose scisor",
    claim_C10_amended.2.2.1 "  ROCK " "rock" (by decide) (by decide) (by decide),
    claim_C10_amended.2.2.2.1 "   " (by decide),
    (claim_C10_amended.2.2.2.2 "i pick papper" (by decide) (by decide) ?_).1⟩
  · rw [hsc]
    decide
  · rw [hip]
    decide

end RPS
